import Mathlib

/-!
Verification development for the solo node key/certificate subsystem.

The definitions below shallowly embed the code of src/core/key_manager.mjs and
src/core/helpers.mjs. Cryptographic material is modelled symbolically: a
private key is a natural-number handle, and the public key matching it is
computed by the injective function pubOf. Certificates record the fields the
code manipulates (serial number, subject, issuer, public key and the private
key that produced the signature). The file system is a partial map from path
strings to file nodes; a file is a list of chunks, where a chunk is either a
decoded PEM block or opaque binary data, so that PEM bundles and appends are
represented faithfully. Temporal certificate fields (notBefore and notAfter)
and the extension lists are orthogonal to every claim below and are not
modelled.
-/

namespace Solo

/-- Error classes as used by src/core/key_manager.mjs: it imports
FullstackTestingError and MissingArgumentError from ./errors.mjs and throws
only those two. The jsRuntime constructor stands for JavaScript runtime
exceptions (ENOENT from readFileSync, DOMException from importKey, parse
failures). The certificateVerification constructor is modelled from the spec:
the spec error taxonomy (section 7) names a CertificateVerificationError, but
no such class appears anywhere in the sources and the code never constructs
one; it is included only so that statements about it can be written down. -/
inductive SoloError where
  | missingArgument (msg : String)
  | fullstackTesting (msg : String)
  | jsRuntime (msg : String)
  | certificateVerification (msg : String)
  deriving DecidableEq, Repr

/-- Abstract public-key derivation: the public key paired with private-key
handle p. Injectivity mirrors the fact that a key pair determines its public
key. -/
def pubOf (priv : Nat) : Nat := priv + 1

/-- X.509 certificate model: the fields of @peculiar/x509 certificates that
key_manager.mjs reads or writes. signedWith is the private-key handle that
produced the signature on the certificate. -/
structure X509Cert where
  serialNumber : String
  subject : String
  issuer : String
  publicKey : Nat
  signedWith : Nat
  deriving DecidableEq, Repr

/-- Signature-only certificate verification, as in cert.verify with
signatureOnly set: checks that the signature was produced by the private key
matching the given public key. -/
def certVerifySigOnly (cert : X509Cert) (pub : Nat) : Bool :=
  pubOf cert.signedWith == pub

/-- Search step of the X509ChainBuilder: find a candidate certificate whose
subject is the issuer of cur and whose public key verifies the signature of
cur. -/
def findIssuerCert (cs : List X509Cert) (cur : X509Cert) : Option X509Cert :=
  cs.find? (fun c => c.subject == cur.issuer && certVerifySigOnly cur c.publicKey)

/-- Fuelled chain construction; each step consumes one candidate, so fuel
equal to the number of candidates suffices. -/
def buildChainAux : Nat → List X509Cert → X509Cert → List X509Cert
  | 0, _, cur => [cur]
  | Nat.succ fuel, cs, cur =>
    match findIssuerCert cs cur with
    | none => [cur]
    | some c => cur :: buildChainAux fuel (cs.erase c) c

/-- Model of new x509.X509ChainBuilder(\x7b certificates \x7d).build(leaf). -/
def buildChain (candidates : List X509Cert) (leaf : X509Cert) : List X509Cert :=
  buildChainAux candidates.length candidates leaf

/-- The dictionary object \x7bprivateKey, certificate, certificateChain\x7d
returned by the KeyManager generators and loadNodeKey. -/
structure NodeKeyObject where
  privateKey : Nat
  certificate : X509Cert
  certificateChain : List X509Cert
  deriving DecidableEq, Repr

/-- Key algorithm descriptors KeyManager.SigningKeyAlgo, KeyManager.ECKeyAlgo
and KeyManager.TLSKeyAlgo; their parameter fields play no role in any claim,
so only their identity is kept. -/
inductive KeyAlgo where
  | signingKeyAlgo
  | ecKeyAlgo
  | tlsKeyAlgo
  deriving DecidableEq, Repr

/-- Modelled from the spec: src/core/constants.mjs is not among the sources.
The signing, agreement and encryption key name tags s, a and e follow the
spec file layout (section 6) and the private-pfx documentation comment in
key_manager.mjs. -/
def SIGNING_KEY_PREF : String := "s"

/-- Modelled from the spec: the agreement key name tag (section 6 layout). -/
def AGREEMENT_KEY_PREF : String := "a"

/-- Modelled from the spec: the encryption key name tag (key_manager.mjs
documents e-key entries in private pfx files). -/
def ENCRYPTION_KEY_PREF : String := "e"

/-- Modelled from the spec: constants.PUBLIC_PFX, the shared public
certificate container file name (section 6: one shared public.pfx). -/
def PUBLIC_PFX : String := "public.pfx"

/-- Model of path.join with two components. -/
def pathJoin (dir name : String) : String := dir ++ "/" ++ name

/-- Modelled from the spec: src/core/templates.mjs is not among the sources.
Section 6 gives the PEM layout prefix-private-nodeId.pem, matching the call
Templates.renderGossipPemPrivateKeyFile(keyPrefix, nodeId) in
key_manager.mjs. -/
def renderGossipPemPrivateKeyFile (keyPref nodeId : String) : String :=
  keyPref ++ "-private-" ++ nodeId ++ ".pem"

/-- Modelled from the spec: section 6 layout prefix-public-nodeId.pem for the
certificate file. -/
def renderGossipPemPublicKeyFile (keyPref nodeId : String) : String :=
  keyPref ++ "-public-" ++ nodeId ++ ".pem"

/-- Modelled from the spec: the friendly name prefix-nodeId used as the
certificate common name (matching the s-node1 style aliases built in
generatePrivatePfxKeys). -/
def renderNodeFriendlyName (keyPref nodeId : String) : String :=
  keyPref ++ "-" ++ nodeId

/-- Modelled from the spec: section 6 TLS layout hedera-nodeId.key, matching
prepareTLSKeyFilePaths in key_manager.mjs. -/
def renderTLSPemPrivateKeyFile (nodeId : String) : String :=
  "hedera-" ++ nodeId ++ ".key"

/-- A decoded PEM block: either a PKCS8 private key or a certificate. -/
inductive PemEntry where
  | keyP8 (priv : Nat)
  | certE (c : X509Cert)
  deriving DecidableEq, Repr

/-- One chunk of file content: a PEM block or opaque binary data. -/
inductive FileChunk where
  | pemE (e : PemEntry)
  | binC (tag : Nat)
  deriving DecidableEq, Repr

/-- A file-system node: a regular file with its content chunks, or a
directory. -/
inductive FsNode where
  | file (chunks : List FileChunk)
  | dir
  deriving DecidableEq, Repr

/-- The file system: a partial map from paths to nodes. -/
def Fs : Type := String → Option FsNode

/-- Model of fs.writeFileSync without flags: create or truncate. -/
def Fs.write (fs : Fs) (p : String) (chunks : List FileChunk) : Fs :=
  fun q => if q = p then some (FsNode.file chunks) else fs q

/-- Model of fs.writeFileSync with the append flag: the a flag creates the
file when absent and appends otherwise. -/
def Fs.append (fs : Fs) (p : String) (chunk : FileChunk) : Fs :=
  fun q =>
    if q = p then
      match fs p with
      | some (FsNode.file old) => some (FsNode.file (old ++ [chunk]))
      | _ => some (FsNode.file [chunk])
    else fs q

/-- Model of fs.rmSync. -/
def Fs.remove (fs : Fs) (p : String) : Fs :=
  fun q => if q = p then none else fs q

/-- Model of fs.mkdirSync. -/
def Fs.mkdir (fs : Fs) (p : String) : Fs :=
  fun q => if q = p then some FsNode.dir else fs q

/-- Model of fs.existsSync. -/
def Fs.existsSync (fs : Fs) (p : String) : Bool :=
  (fs p).isSome

/-- Model of fs.cpSync for a single file: copy the node at src to dest. The
sources only invoke it after an existence check, so the missing-source case
leaves the file system unchanged. -/
def Fs.cpSync (fs : Fs) (src dest : String) : Fs :=
  match fs src with
  | some d => fun q => if q = dest then some d else fs q
  | none => fs

/-- Extensionality for strings via their character data. -/
theorem strData_inj {s t : String} (h : s.data = t.data) : s = t := by
  cases s; cases t; simp_all

/-- Append on strings acts as append on character data. -/
theorem strData_append (s t : String) : (s ++ t).data = s.data ++ t.data :=
  String.data_append s t

/-- Left cancellation for string append. -/
theorem strAppend_left_cancel {c a b : String} (h : c ++ a = c ++ b) : a = b := by
  have hd := congrArg String.data h
  rw [strData_append, strData_append] at hd
  exact strData_inj (List.append_cancel_left hd)

/-- Right cancellation for string append. -/
theorem strAppend_right_cancel {a b s : String} (h : a ++ s = b ++ s) : a = b := by
  have hd := congrArg String.data h
  rw [strData_append, strData_append] at hd
  exact strData_inj (List.append_cancel_right hd)

/-- Two appends with distinct characters at position n of their left parts are
distinct strings. -/
theorem strAppend_ne_of_get {c d : String} (a b : String) (n : Nat)
    (h₁ : n < c.data.length) (h₂ : n < d.data.length)
    (hne : c.data.get? n ≠ d.data.get? n) : c ++ a ≠ d ++ b := by
  intro h
  apply hne
  have hd := congrArg String.data h
  rw [strData_append, strData_append] at hd
  have e₁ : (c.data ++ a.data).get? n = c.data.get? n := by
    simp only [List.get?_eq_getElem?]
    exact List.getElem?_append_left h₁
  have e₂ : (d.data ++ b.data).get? n = d.data.get? n := by
    simp only [List.get?_eq_getElem?]
    exact List.getElem?_append_left h₂
  rw [← e₁, ← e₂, hd]

/-- Two appends with distinct characters at reverse position k of their right
parts are distinct strings. -/
theorem strAppend_ne_of_revGet {s t : String} (a b : String) (k : Nat)
    (h₁ : k < s.data.length) (h₂ : k < t.data.length)
    (hne : s.data.reverse.get? k ≠ t.data.reverse.get? k) : a ++ s ≠ b ++ t := by
  intro h
  apply hne
  have hd := congrArg (fun z : String => z.data.reverse) h
  simp only [strData_append, List.reverse_append] at hd
  have e₁ : (s.data.reverse ++ a.data.reverse).get? k = s.data.reverse.get? k := by
    simp only [List.get?_eq_getElem?]
    exact List.getElem?_append_left (by simpa using h₁)
  have e₂ : (t.data.reverse ++ b.data.reverse).get? k = t.data.reverse.get? k := by
    simp only [List.get?_eq_getElem?]
    exact List.getElem?_append_left (by simpa using h₂)
  rw [← e₁, ← e₂, hd]

/-- Name-shape discrimination by a position inside the constant head. -/
theorem shapeHead_ne {c d : String} (x y s t : String) (n : Nat)
    (h₁ : n < c.data.length) (h₂ : n < d.data.length)
    (hne : c.data.get? n ≠ d.data.get? n) : c ++ x ++ s ≠ d ++ y ++ t := by
  rw [String.append_assoc, String.append_assoc]
  exact strAppend_ne_of_get _ _ n h₁ h₂ hne

/-- Name-shape discrimination by a position inside the constant tail. -/
theorem shapeTail_ne {s t : String} (c d x y : String) (k : Nat)
    (h₁ : k < s.data.length) (h₂ : k < t.data.length)
    (hne : s.data.reverse.get? k ≠ t.data.reverse.get? k) : c ++ x ++ s ≠ d ++ y ++ t :=
  strAppend_ne_of_revGet _ _ k h₁ h₂ hne

/-- Cancellation of a shared constant head and tail around a name. -/
theorem shapeMid_cancel {c s x y : String} (h : c ++ x ++ s = c ++ y ++ s) : x = y := by
  rw [String.append_assoc, String.append_assoc] at h
  exact strAppend_right_cancel (strAppend_left_cancel h)

/-- Joining distinct names under one directory yields distinct paths. -/
theorem pathJoin_ne_of_name_ne {d n m : String} (h : n ≠ m) :
    pathJoin d n ≠ pathJoin d m := by
  intro he
  exact h (strAppend_left_cancel he)

/-- Joining one name under distinct directories yields distinct paths. -/
theorem pathJoin_ne_of_dir_ne {d e n : String} (h : d ≠ e) :
    pathJoin d n ≠ pathJoin e n := by
  intro he
  exact h (strAppend_right_cancel (strAppend_right_cancel he))

/-- File name pair produced by prepareNodeKeyFilePaths and
prepareTLSKeyFilePaths. -/
structure NodeKeyFiles where
  privateKeyFile : String
  certificateFile : String
  deriving DecidableEq, Repr

/-- Embedding of KeyManager.prepareNodeKeyFilePaths. The JavaScript falsiness
guards on the string arguments reject exactly the empty string. -/
def prepareNodeKeyFilePaths (nodeId keysDir keyPref : String) :
    Except SoloError NodeKeyFiles :=
  if nodeId = "" then .error (.missingArgument "nodeId is required")
  else if keysDir = "" then .error (.missingArgument "keysDir is required")
  else if keyPref = "" then .error (.missingArgument "keyPrefix is required")
  else
    .ok { privateKeyFile := pathJoin keysDir (renderGossipPemPrivateKeyFile keyPref nodeId)
          certificateFile := pathJoin keysDir (renderGossipPemPublicKeyFile keyPref nodeId) }

/-- Embedding of KeyManager.prepareTLSKeyFilePaths. -/
def prepareTLSKeyFilePaths (nodeId keysDir : String) :
    Except SoloError NodeKeyFiles :=
  if nodeId = "" then .error (.missingArgument "nodeId is required")
  else if keysDir = "" then .error (.missingArgument "keysDir is required")
  else
    .ok { privateKeyFile := pathJoin keysDir ("hedera-" ++ nodeId ++ ".key")
          certificateFile := pathJoin keysDir ("hedera-" ++ nodeId ++ ".crt") }

/-- Model of x509.PemConverter.decode on file content: collect the PEM blocks;
binary chunks carry no PEM armor and contribute nothing. -/
def pemDecode (chunks : List FileChunk) : List PemEntry :=
  chunks.filterMap (fun ch =>
    match ch with
    | .pemE e => some e
    | .binC _ => none)

/-- Embedding of KeyManager.convertPrivateKeyToPem: the PKCS8 PEM encoding of
a private key. -/
def convertPrivateKeyToPem (priv : Nat) : FileChunk :=
  .pemE (.keyP8 priv)

/-- Embedding of KeyManager.convertPemToPrivateKey: decode the PEM container
and import the last block as a PKCS8 private key. An empty container indexes
items[-1] which is undefined, and a certificate block is not PKCS8 key data;
both make crypto.subtle.importKey fail. -/
def convertPemToPrivateKey (pemData : List FileChunk) (algo : Option KeyAlgo) :
    Except SoloError Nat :=
  if algo = none then .error (.missingArgument "algo is required")
  else
    match (pemDecode pemData).getLast? with
    | some (.keyP8 k) => .ok k
    | some (.certE _) => .error (.jsRuntime "importKey: invalid PKCS8 data")
    | none => .error (.jsRuntime "importKey: no key data")

/-- Embedding of KeyManager.storeNodeKey. The code writes the private key PEM
(truncating), removes a pre-existing certificate file, then appends each
certificate of the chain to the certificate file. The null guards on nodeKey
itself cannot fire in the typed model; an empty certificate chain array is
truthy in JavaScript, so it passes the guard, faithfully kept here. The file
mutation sequence is split out as storeFsResult. -/
def storeFsResult (nodeKey : NodeKeyObject) (nodeKeyFiles : NodeKeyFiles)
    (fs : Fs) : Fs :=
  let keyPem := convertPrivateKeyToPem nodeKey.privateKey
  let certPems := nodeKey.certificateChain.map (fun c => FileChunk.pemE (.certE c))
  let fs₁ := fs.write nodeKeyFiles.privateKeyFile [keyPem]
  let fs₂ :=
    if fs₁.existsSync nodeKeyFiles.certificateFile then
      fs₁.remove nodeKeyFiles.certificateFile
    else fs₁
  certPems.foldl (fun acc cp => acc.append nodeKeyFiles.certificateFile cp) fs₂

/-- Guard section of KeyManager.storeNodeKey; on success it returns the file
names together with the mutated file system. -/
def storeNodeKey (nodeId : String) (nodeKey : NodeKeyObject) (keysDir : String)
    (nodeKeyFiles : NodeKeyFiles) (fs : Fs) :
    Except SoloError (NodeKeyFiles × Fs) :=
  if nodeId = "" then .error (.missingArgument "nodeId is required")
  else if keysDir = "" then .error (.missingArgument "keysDir is required")
  else if nodeKeyFiles.privateKeyFile = "" then
    .error (.missingArgument "nodeKeyFiles.privateKeyFile is required")
  else if nodeKeyFiles.certificateFile = "" then
    .error (.missingArgument "nodeKeyFiles.certificateFile is required")
  else
    .ok (nodeKeyFiles, storeFsResult nodeKey nodeKeyFiles fs)

/-- Parsing each decoded PEM block as an X509Certificate; a private-key block
is not certificate data and makes the constructor throw. -/
def parseX509Certs : List PemEntry → Except SoloError (List X509Cert)
  | [] => .ok []
  | .certE c :: rest => (parseX509Certs rest).map (fun l => c :: l)
  | .keyP8 _ :: _ => .error (.jsRuntime "X509Certificate: invalid certificate data")

/-- Embedding of KeyManager.loadNodeKey: read and import the private key, read
and parse the certificate bundle, then build the chain from the first
certificate with the remaining ones as candidates. Reading a missing path or
a directory raises, and an empty bundle makes certs[0] undefined, which makes
the chain builder throw. -/
def loadNodeKey (nodeId keysDir : String) (algo : Option KeyAlgo)
    (nodeKeyFiles : NodeKeyFiles) (fs : Fs) : Except SoloError NodeKeyObject :=
  if nodeId = "" then .error (.missingArgument "nodeId is required")
  else if keysDir = "" then .error (.missingArgument "keysDir is required")
  else if algo = none then .error (.missingArgument "algo is required")
  else if nodeKeyFiles.privateKeyFile = "" then
    .error (.missingArgument "nodeKeyFiles.privateKeyFile is required")
  else if nodeKeyFiles.certificateFile = "" then
    .error (.missingArgument "nodeKeyFiles.certificateFile is required")
  else
    match fs nodeKeyFiles.privateKeyFile with
    | none => .error (.jsRuntime "readFileSync: ENOENT")
    | some FsNode.dir => .error (.jsRuntime "readFileSync: EISDIR")
    | some (FsNode.file keyBytes) =>
      match convertPemToPrivateKey keyBytes algo with
      | .error e => .error e
      | .ok key =>
        match fs nodeKeyFiles.certificateFile with
        | none => .error (.jsRuntime "readFileSync: ENOENT")
        | some FsNode.dir => .error (.jsRuntime "readFileSync: EISDIR")
        | some (FsNode.file certBytes) =>
          match parseX509Certs (pemDecode certBytes) with
          | .error e => .error e
          | .ok [] => .error (.jsRuntime "chain builder: certs[0] is undefined")
          | .ok (c₀ :: rest) =>
            .ok { privateKey := key
                  certificate := c₀
                  certificateChain := buildChain rest c₀ }

/-- Embedding of KeyManager.generateSigningKey: a fresh RSA key pair and a
self-signed certificate with serial number 01 and common name s-nodeId. The
fresh parameter stands for the randomness of crypto.subtle.generateKey;
provider failures are not modelled. -/
def generateSigningKey (nodeId : String) (fresh : Nat) : NodeKeyObject :=
  let friendlyName := renderNodeFriendlyName SIGNING_KEY_PREF nodeId
  let cert : X509Cert :=
    { serialNumber := "01"
      subject := "CN=" ++ friendlyName
      issuer := "CN=" ++ friendlyName
      publicKey := pubOf fresh
      signedWith := fresh }
  { privateKey := fresh
    certificate := cert
    certificateChain := buildChain [] cert }

/-- Embedding of KeyManager.ecKey: a fresh EC key pair, a certificate whose
issuer is the subject of the signing certificate and which is signed with the
signing private key, a signature-only verification against the issuer public
key, and the chain built with the signing certificate as candidate. A failed
verification throws inside the try block and is re-wrapped by the catch as a
FullstackTestingError. The signingKey option mirrors the no-signing-key null
guard. The certificate built inside ecKey is split out here: issuer is the
subject of the signing certificate and the signature is produced with the
signing private key. -/
def ecCert (nodeId keyPref : String) (signingKey : NodeKeyObject)
    (fresh : Nat) : X509Cert :=
  { serialNumber := "01"
    subject := "CN=" ++ renderNodeFriendlyName keyPref nodeId
    issuer := signingKey.certificate.subject
    publicKey := pubOf fresh
    signedWith := signingKey.privateKey }

/-- Guard, verification and chain-building sequence of KeyManager.ecKey. -/
def ecKey (nodeId keyPref : String) (signingKey : Option NodeKeyObject)
    (fresh : Nat) : Except SoloError NodeKeyObject :=
  if nodeId = "" then .error (.missingArgument "nodeId is required")
  else if keyPref = "" then .error (.missingArgument "keyPrefix is required")
  else
    match signingKey with
    | none => .error (.missingArgument "no signing key found")
    | some signingKey =>
      let cert := ecCert nodeId keyPref signingKey fresh
      if certVerifySigOnly cert signingKey.certificate.publicKey then
        .ok { privateKey := fresh
              certificate := cert
              certificateChain := buildChain [signingKey.certificate] cert }
      else
        .error (.fullstackTesting
          ("failed to generate " ++ keyPref ++
            "-key: failed to verify generated certificate for " ++
            renderNodeFriendlyName keyPref nodeId))

/-- Embedding of KeyManager.generateAgreementKey. -/
def generateAgreementKey (nodeId : String) (signingKey : Option NodeKeyObject)
    (fresh : Nat) : Except SoloError NodeKeyObject :=
  ecKey nodeId AGREEMENT_KEY_PREF signingKey fresh

/-- Embedding of KeyManager.generateGrpcTLSKey: a fresh RSA key pair and a
self-signed certificate for the given distinguished name. -/
def generateGrpcTLSKey (nodeId : String) (distinguishedName : String)
    (fresh : Nat) : Except SoloError NodeKeyObject :=
  if nodeId = "" then .error (.missingArgument "nodeId is required")
  else if distinguishedName = "" then
    .error (.missingArgument "distinguishedName is required")
  else
    let cert : X509Cert :=
      { serialNumber := "01"
        subject := distinguishedName
        issuer := distinguishedName
        publicKey := pubOf fresh
        signedWith := fresh }
    .ok { privateKey := fresh
          certificate := cert
          certificateChain := buildChain [] cert }

/-- Abstract signing relation: a signature produced with private key priv
verifies against public key pub exactly when they are a pair. -/
def signVerifies (priv pub : Nat) : Bool :=
  pubOf priv == pub

/-- Check whether a key-generation result failed with the
CertificateVerificationError of the spec taxonomy. -/
def isCertificateVerificationError (r : Except SoloError NodeKeyObject) : Bool :=
  match r with
  | .error (.certificateVerification _) => true
  | _ => false

/-- JavaScript Map.set semantics on an insertion-ordered association list:
update the value in place when the key is present, append otherwise. -/
def mapSet : List (String × String) → String → String → List (String × String)
  | [], k, v => [(k, v)]
  | (k', v') :: rest, k, v =>
    if k' = k then (k, v) :: rest else (k', v') :: mapSet rest k v

/-- Rendering of a node account identifier realm.shard.num as in
helpers.getNodeAccountMap. -/
def renderAccountId (realm shard num : Nat) : String :=
  toString realm ++ "." ++ toString shard ++ "." ++ toString num

/-- The \x7brealm, shard, num\x7d record shape of the account start
constant. -/
structure AccountIdStart where
  realm : Nat
  shard : Nat
  num : Nat
  deriving DecidableEq, Repr

/-- Modelled from the spec: constants.HEDERA_NODE_ACCOUNT_ID_START lives in
src/core/constants.mjs, which is not among the sources. The spec states only
that account identifiers start from a fixed realm/shard pair and a constant
numeric start value; the concrete value chosen here is immaterial to every
theorem below. -/
def HEDERA_NODE_ACCOUNT_ID_START : AccountIdStart :=
  { realm := 0, shard := 0, num := 3 }

/-- Loop of helpers.getNodeAccountMap: the counter accountId is incremented
once per iterated node id, and the map entry is written with Map.set. -/
def getNodeAccountMapAux (realm shard : Nat) :
    List String → Nat → List (String × String) → List (String × String)
  | [], _, accountMap => accountMap
  | nodeID :: rest, accountId, accountMap =>
    getNodeAccountMapAux realm shard rest (accountId + 1)
      (mapSet accountMap nodeID (renderAccountId realm shard accountId))

/-- Embedding of helpers.getNodeAccountMap. -/
def getNodeAccountMap (nodeIDs : List String) : List (String × String) :=
  getNodeAccountMapAux HEDERA_NODE_ACCOUNT_ID_START.realm
    HEDERA_NODE_ACCOUNT_ID_START.shard nodeIDs HEDERA_NODE_ACCOUNT_ID_START.num []

/-- Reference assignment in iteration order from a start value, used to state
what getNodeAccountMap computes on duplicate-free input. -/
def assignAccountsFrom (realm shard : Nat) : List String → Nat → List (String × String)
  | [], _ => []
  | n :: rest, i => (n, renderAccountId realm shard i) :: assignAccountsFrom realm shard rest (i + 1)

/-- The fields of a JavaScript Date that createBackupDir reads. getMonth is
zero-based, faithfully kept. -/
structure DateParts where
  year : Nat
  month : Nat
  day : Nat
  hour : Nat
  minute : Nat
  second : Nat
  deriving DecidableEq, Repr

/-- Model of toString().padStart(2, zero) on a natural number. -/
def pad2 (n : Nat) : String :=
  if n < 10 then "0" ++ toString n else toString n

/-- The dated directory name built by helpers.createBackupDir: year (no
padding) then padded month, day, an underscore, then padded hour, minute,
second. -/
def dateDirOf (d : DateParts) : String :=
  toString d.year ++ pad2 d.month ++ pad2 d.day ++ "_" ++
    pad2 d.hour ++ pad2 d.minute ++ pad2 d.second

/-- Embedding of helpers.createBackupDir: returns the backup directory path
destDir/prefix/dateDir, creating it when absent. -/
def createBackupDir (destDir pref : String) (curDate : DateParts) (fs : Fs) :
    String × Fs :=
  let backupDir := pathJoin (pathJoin destDir pref) (dateDirOf curDate)
  if fs.existsSync backupDir then (backupDir, fs)
  else (backupDir, fs.mkdir backupDir)

/-- Embedding of helpers.makeBackup: for each map entry in insertion order,
if the source exists it is copied to the destination and, when removeOld is
set, the source is removed; missing sources are skipped. -/
def makeBackup (fileMap : List (String × String)) (removeOld : Bool) (fs : Fs) : Fs :=
  match fileMap with
  | [] => fs
  | (srcPath, destPath) :: rest =>
    if fs.existsSync srcPath then
      let fs₁ := fs.cpSync srcPath destPath
      let fs₂ := if removeOld then fs₁.remove srcPath else fs₁
      makeBackup rest removeOld fs₂
    else makeBackup rest removeOld fs

/-- Embedding of helpers.backupOldPfxKeys (dirPrefix defaults to gossip-pfx
at call sites). -/
def backupOldPfxKeys (nodeIds : List String) (keysDir : String)
    (curDate : DateParts) (dirPref : String) (fs : Fs) : String × Fs :=
  let (backupDir, fs₁) := createBackupDir keysDir ("unused-" ++ dirPref) curDate fs
  let fileMap := nodeIds.foldl
    (fun m nodeId =>
      mapSet m (pathJoin keysDir ("private-" ++ nodeId ++ ".pfx"))
        (pathJoin backupDir ("private-" ++ nodeId ++ ".pfx"))) []
  let fileMap := mapSet fileMap (pathJoin keysDir "public.pfx") (pathJoin backupDir "public.pfx")
  (backupDir, makeBackup fileMap true fs₁)

/-- Embedding of helpers.backupOldPemKeys. The source computes the map entry
as Templates.renderGossipPemPrivateKeyFile(nodeId), passing a single
argument, while the template takes the key name tag first and the node id
second (exactly as key_manager.mjs calls it). The call therefore binds the
node id to the tag parameter and leaves the node id parameter absent, and an
absent argument interpolates into a template literal as the text undefined. -/
def backupOldPemKeys (nodeIds : List String) (keysDir : String)
    (curDate : DateParts) (dirPref : String) (fs : Fs) : String × Fs :=
  let (backupDir, fs₁) := createBackupDir keysDir ("unused-" ++ dirPref) curDate fs
  let fileMap := nodeIds.foldl
    (fun m nodeId =>
      mapSet m (pathJoin keysDir (renderGossipPemPrivateKeyFile nodeId "undefined"))
        (pathJoin backupDir (renderGossipPemPrivateKeyFile nodeId "undefined"))) []
  (backupDir, makeBackup fileMap true fs₁)

/-- Embedding of helpers.backupOldTlsKeys (dirPrefix defaults to tls at call
sites). -/
def backupOldTlsKeys (nodeIds : List String) (keysDir : String)
    (curDate : DateParts) (dirPref : String) (fs : Fs) : String × Fs :=
  let (backupDir, fs₁) := createBackupDir keysDir ("unused-" ++ dirPref) curDate fs
  let fileMap := nodeIds.foldl
    (fun m nodeId =>
      mapSet m (pathJoin keysDir (renderTLSPemPrivateKeyFile nodeId))
        (pathJoin backupDir (renderTLSPemPrivateKeyFile nodeId))) []
  (backupDir, makeBackup fileMap true fs₁)

/-- One keytool invocation with the file-relevant arguments the code passes:
the entry alias, the keystore path, and input or output file paths. -/
inductive KeytoolOp where
  | genKeyPair (aliasName keystore dname : String)
  | certReq (aliasName keystore file : String)
  | genCert (aliasName keystore infile outfile : String)
  | importCert (aliasName keystore file : String)
  | exportCert (aliasName keystore file : String)
  deriving DecidableEq, Repr

/-- The paths an invocation is allowed to touch. -/
def KeytoolOp.paths : KeytoolOp → List String
  | .genKeyPair _ ks _ => [ks]
  | .certReq _ ks f => [ks, f]
  | .genCert _ ks fi fo => [ks, fi, fo]
  | .importCert _ ks f => [ks, f]
  | .exportCert _ ks f => [ks, f]

/-- External key-tooling collaborator (core/Keytool): each operation is a
synchronous external call that transforms the file system and may fail. The
concrete behavior is a parameter of the model. -/
structure Keytool where
  run : KeytoolOp → Fs → Fs × Option SoloError

/-- A keytool invocation is framed when, whether it succeeds or fails, it
changes the file system only at the paths passed to it. -/
def KeytoolFramed (kt : Keytool) : Prop :=
  ∀ op fs q, q ∉ op.paths → (kt.run op fs).1 q = fs q

/-- Run a list of keytool invocations in order, recording each performed
invocation and stopping at the first failure. -/
def runOps (kt : Keytool) : List KeytoolOp → Fs → List KeytoolOp →
    (Fs × List KeytoolOp) × Option SoloError
  | [], fs, tr => ((fs, tr), none)
  | op :: rest, fs, tr =>
    match kt.run op fs with
    | (fs', some e) => ((fs', tr ++ [op]), some e)
    | (fs', none) => runOps kt rest fs' (tr ++ [op])

/-- Result of a pfx-producing operation: the final file system, the keytool
invocations performed, and the returned path or the raised error. -/
structure KeytoolRunResult where
  fs : Fs
  trace : List KeytoolOp
  result : Except SoloError String

/-- The four keytool invocations generatePrivatePfxKeys performs for one
signed key (agreement or encryption): generate the key pair, produce the
certificate request, sign it with the signing key, import the signed
certificate. -/
def signedKeyOps (nodeId tmpDir tmpPrivatePfxFile signedKeyAlias keyPref : String) :
    List KeytoolOp :=
  let certReqFile := pathJoin tmpDir (nodeId ++ "-cert-req-" ++ keyPref ++ ".pfx")
  let certFile := pathJoin tmpDir (nodeId ++ "-signed-cert-" ++ keyPref ++ ".pfx")
  let aliasName := keyPref ++ "-" ++ nodeId
  [ .genKeyPair aliasName tmpPrivatePfxFile ("cn=" ++ aliasName),
    .certReq aliasName tmpPrivatePfxFile certReqFile,
    .genCert signedKeyAlias tmpPrivatePfxFile certReqFile certFile,
    .importCert aliasName tmpPrivatePfxFile certFile ]

/-- The full keytool invocation sequence of generatePrivatePfxKeys: the
self-signed signing key, then the agreement and encryption keys. -/
def privatePfxOps (nodeId tmpDir tmpPrivatePfxFile signedKeyAlias : String) :
    List KeytoolOp :=
  KeytoolOp.genKeyPair signedKeyAlias tmpPrivatePfxFile
      ("cn=" ++ SIGNING_KEY_PREF ++ "-" ++ nodeId)
    :: (signedKeyOps nodeId tmpDir tmpPrivatePfxFile signedKeyAlias AGREEMENT_KEY_PREF
        ++ signedKeyOps nodeId tmpDir tmpPrivatePfxFile signedKeyAlias ENCRYPTION_KEY_PREF)

/-- Embedding of KeyManager.generatePrivatePfxKeys: if private-nodeId.pfx
already exists in the keys directory the existing path is returned at once;
otherwise all keystore work happens on a temporary file in tmpDir, which is
finally copied to the keys directory. -/
def generatePrivatePfxMain (kt : Keytool) (nodeId keysDir tmpDir : String)
    (fs : Fs) : KeytoolRunResult :=
  match runOps kt
      (privatePfxOps nodeId tmpDir (pathJoin tmpDir ("private-" ++ nodeId ++ ".pfx"))
        (SIGNING_KEY_PREF ++ "-" ++ nodeId)) fs [] with
  | ((fs', tr), some e) => ⟨fs', tr, .error e⟩
  | ((fs', tr), none) =>
    match fs' (pathJoin tmpDir ("private-" ++ nodeId ++ ".pfx")) with
    | none => ⟨fs', tr, .error (.jsRuntime "cpSync: ENOENT")⟩
    | some d =>
      ⟨fun q => if q = pathJoin keysDir ("private-" ++ nodeId ++ ".pfx") then some d else fs' q,
        tr, .ok (pathJoin keysDir ("private-" ++ nodeId ++ ".pfx"))⟩

/-- Guard and overwrite-protection section of generatePrivatePfxKeys: when the
private pfx file already exists the existing path is returned with no
keystore work. -/
def generatePrivatePfxKeys (kt : Keytool) (nodeId keysDir tmpDir : String)
    (fs : Fs) : KeytoolRunResult :=
  if nodeId = "" then ⟨fs, [], .error (.missingArgument "nodeId is required")⟩
  else if keysDir = "" then ⟨fs, [], .error (.missingArgument "keysDir is required")⟩
  else if ¬ fs.existsSync keysDir then
    ⟨fs, [], .error (.missingArgument "keysDir does not exist")⟩
  else if fs.existsSync (pathJoin keysDir ("private-" ++ nodeId ++ ".pfx")) then
    ⟨fs, [], .ok (pathJoin keysDir ("private-" ++ nodeId ++ ".pfx"))⟩
  else generatePrivatePfxMain kt nodeId keysDir tmpDir fs

/-- The two keytool invocations updatePublicPfxKey performs per node and key
name tag: export the signed certificate from the private keystore, import it
into the temporary public keystore. -/
def exportImportOps (nodeId keysDir tmpDir tmpPublicPfxFile keyPref : String) :
    List KeytoolOp :=
  let privatePfxFile := pathJoin keysDir ("private-" ++ nodeId ++ ".pfx")
  let certFile := pathJoin tmpDir (nodeId ++ "-cert-" ++ keyPref ++ ".pfx")
  let aliasName := keyPref ++ "-" ++ nodeId
  [ .exportCert aliasName privatePfxFile certFile,
    .importCert aliasName tmpPublicPfxFile certFile ]

/-- The node loop of updatePublicPfxKey: check the private pfx exists, then
export and import the signing, agreement and encryption certificates. -/
def updatePublicPfxLoop (kt : Keytool) (keysDir tmpDir tmpPublicPfxFile : String) :
    List String → Fs → List KeytoolOp → (Fs × List KeytoolOp) × Option SoloError
  | [], fs, tr => ((fs, tr), none)
  | nodeId :: rest, fs, tr =>
    if ¬ fs.existsSync (pathJoin keysDir ("private-" ++ nodeId ++ ".pfx")) then
      ((fs, tr), some (.fullstackTesting
        ("private pfx " ++ pathJoin keysDir ("private-" ++ nodeId ++ ".pfx")
          ++ " file does not exist")))
    else
      match runOps kt
        (exportImportOps nodeId keysDir tmpDir tmpPublicPfxFile SIGNING_KEY_PREF
          ++ exportImportOps nodeId keysDir tmpDir tmpPublicPfxFile AGREEMENT_KEY_PREF
          ++ exportImportOps nodeId keysDir tmpDir tmpPublicPfxFile ENCRYPTION_KEY_PREF)
        fs tr with
      | (st, some e) => (st, some e)
      | ((fs', tr'), none) => updatePublicPfxLoop kt keysDir tmpDir tmpPublicPfxFile rest fs' tr'

/-- Embedding of KeyManager.updatePublicPfxKey: the existing public.pfx is
copied to tmpDir, every export/import happens against that temporary copy,
and only after the loop finishes is the temporary copy written back over
public.pfx in the keys directory. An empty node-id array is truthy in
JavaScript, so the nodeIds guard never fires for array arguments. -/
def updatePublicPfxMain (kt : Keytool) (nodeIds : List String)
    (keysDir tmpDir : String) (fs : Fs) : KeytoolRunResult :=
  match updatePublicPfxLoop kt keysDir tmpDir (pathJoin tmpDir PUBLIC_PFX) nodeIds
      (if fs.existsSync (pathJoin keysDir "public.pfx") then
        fs.cpSync (pathJoin keysDir "public.pfx") (pathJoin tmpDir PUBLIC_PFX)
      else fs) [] with
  | ((fs', tr), some e) => ⟨fs', tr, .error e⟩
  | ((fs', tr), none) =>
    match fs' (pathJoin tmpDir PUBLIC_PFX) with
    | none => ⟨fs', tr, .error (.jsRuntime "cpSync: ENOENT")⟩
    | some d =>
      ⟨fun q => if q = pathJoin keysDir "public.pfx" then some d else fs' q, tr,
        .ok (pathJoin keysDir "public.pfx")⟩

/-- Guard section of updatePublicPfxKey. -/
def updatePublicPfxKey (kt : Keytool) (nodeIds : List String)
    (keysDir tmpDir : String) (fs : Fs) : KeytoolRunResult :=
  if keysDir = "" then ⟨fs, [], .error (.missingArgument "keysDir is required")⟩
  else if ¬ fs.existsSync keysDir then
    ⟨fs, [], .error (.missingArgument "keysDir does not exist")⟩
  else updatePublicPfxMain kt nodeIds keysDir tmpDir fs

/-- Modelled from the spec: the key-material step of the Node Lifecycle
Orchestrator (src/commands/node.mjs is not among the sources). Per spec
section 4.3, an Add or Update operation generates signing, agreement and TLS
key material for the target node only and stores it through the KeyManager
(whose storeNodeKey embedding above is taken from the source); no other file
of the keys directory is written. -/
def regenerateNodeKeys (x keysDir : String) (freshS freshA freshT : Nat)
    (fs : Fs) : Except SoloError Fs := do
  let sk := generateSigningKey x freshS
  let sf ← prepareNodeKeyFilePaths x keysDir SIGNING_KEY_PREF
  let (_, fs₁) ← storeNodeKey x sk keysDir sf fs
  let ak ← generateAgreementKey x (some sk) freshA
  let af ← prepareNodeKeyFilePaths x keysDir AGREEMENT_KEY_PREF
  let (_, fs₂) ← storeNodeKey x ak keysDir af fs₁
  let tk ← generateGrpcTLSKey x ("CN=" ++ x) freshT
  let tf ← prepareTLSKeyFilePaths x keysDir
  let (_, fs₃) ← storeNodeKey x tk keysDir tf fs₂
  pure fs₃

/-- Modelled from the spec: the Add lifecycle operation validates that the
proposed node name is not already present (section 4.3 step 1) and then
generates and stores key material for the new node only. -/
def addNode (existing : List String) (x keysDir : String)
    (freshS freshA freshT : Nat) (fs : Fs) : Except SoloError Fs :=
  if x ∈ existing then .error (.fullstackTesting ("node " ++ x ++ " already exists"))
  else regenerateNodeKeys x keysDir freshS freshA freshT fs

/-- Modelled from the spec: the Update lifecycle operation targets an
existing node and may regenerate only that node's keys (section 4.3),
holding all other nodes' material untouched. -/
def updateNode (existing : List String) (x keysDir : String)
    (freshS freshA freshT : Nat) (fs : Fs) : Except SoloError Fs :=
  if x ∈ existing then regenerateNodeKeys x keysDir freshS freshA freshT fs
  else .error (.fullstackTesting ("node " ++ x ++ " does not exist"))

/-- The private key and certificate files belonging to node y under the
section 6 layout: gossip signing and agreement PEM pairs, the TLS key and
certificate, and the private pfx container. -/
def nodeKeyFilePaths (keysDir y : String) : List String :=
  [ pathJoin keysDir (renderGossipPemPrivateKeyFile SIGNING_KEY_PREF y),
    pathJoin keysDir (renderGossipPemPublicKeyFile SIGNING_KEY_PREF y),
    pathJoin keysDir (renderGossipPemPrivateKeyFile AGREEMENT_KEY_PREF y),
    pathJoin keysDir (renderGossipPemPublicKeyFile AGREEMENT_KEY_PREF y),
    pathJoin keysDir ("hedera-" ++ y ++ ".key"),
    pathJoin keysDir ("hedera-" ++ y ++ ".crt"),
    pathJoin keysDir ("private-" ++ y ++ ".pfx") ]

/-- The six paths regenerateNodeKeys writes for the target node: the three
store calls each write one private-key file and one certificate file. -/
def writtenKeyFilePaths (keysDir x : String) : List String :=
  [ pathJoin keysDir (renderGossipPemPrivateKeyFile SIGNING_KEY_PREF x),
    pathJoin keysDir (renderGossipPemPublicKeyFile SIGNING_KEY_PREF x),
    pathJoin keysDir (renderGossipPemPrivateKeyFile AGREEMENT_KEY_PREF x),
    pathJoin keysDir (renderGossipPemPublicKeyFile AGREEMENT_KEY_PREF x),
    pathJoin keysDir ("hedera-" ++ x ++ ".key"),
    pathJoin keysDir ("hedera-" ++ x ++ ".crt") ]

/-- Concrete signing key used by witnesses. -/
def skW : NodeKeyObject := generateSigningKey "node1" 0

/-- The certificate generateAgreementKey builds for skW with fresh handle 1. -/
def akCertW : X509Cert :=
  { serialNumber := "01", subject := "CN=a-node1", issuer := "CN=s-node1"
    publicKey := 2, signedWith := 0 }

/-- The agreement key generateAgreementKey returns for skW with fresh
handle 1. -/
def akW : NodeKeyObject :=
  { privateKey := 1
    certificate := akCertW
    certificateChain := [akCertW, skW.certificate] }

/-- A corrupt signing key: its certificate carries a public key that is not
the pair of its private key, so agreement-certificate verification fails. -/
def badSkW : NodeKeyObject :=
  { privateKey := 5
    certificate :=
      { serialNumber := "01", subject := "CN=s-node1", issuer := "CN=s-node1"
        publicKey := 99, signedWith := 5 }
    certificateChain :=
      [{ serialNumber := "01", subject := "CN=s-node1", issuer := "CN=s-node1"
         publicKey := 99, signedWith := 5 }] }

/-- Concrete file-name pair used by witnesses. -/
def filesW : NodeKeyFiles :=
  { privateKeyFile := "keys/s-private-node1.pem"
    certificateFile := "keys/s-public-node1.pem" }

/-- The empty file system. -/
def fsEmptyW : Fs := fun _ => none

/-- The file system after storing skW in the empty file system. -/
def fsStoredW : Fs := storeFsResult skW filesW fsEmptyW

/-- A trivial keytool model whose operations succeed without touching the
file system; it satisfies the frame condition. -/
def kt0 : Keytool := ⟨fun _ fs => (fs, none)⟩

/-- A file system holding the keys directory and an existing private pfx
file for node1. -/
def fsKeysW : Fs := fun q =>
  if q = "keys" then some FsNode.dir
  else if q = "keys/private-node1.pfx" then some (FsNode.file [FileChunk.binC 0])
  else none

/-- A file system holding the keys directory and a shared public.pfx but no
private pfx files. -/
def fsPubW : Fs := fun q =>
  if q = "keys" then some FsNode.dir
  else if q = "keys/public.pfx" then some (FsNode.file [FileChunk.binC 7])
  else none

/-- The state of fsPubW after the public container is copied to the tmp
directory. -/
def fsPubTmpW : Fs :=
  Fs.cpSync fsPubW (pathJoin "keys" "public.pfx") (pathJoin "tmp" PUBLIC_PFX)

/-- The file system an Add of node3 into {node1, node2} produces from
the empty file system. -/
def addResultW : Fs :=
  match addNode ["node1", "node2"] "node3" "keys" 10 11 12 fsEmptyW with
  | .ok f => f
  | .error _ => fsEmptyW

/-- A concrete date for the backup evaluation. -/
def dateW : DateParts :=
  { year := 2024, month := 0, day := 1, hour := 2, minute := 3, second := 4 }

/-- A file system holding exactly the node1 gossip signing private key at the
spec layout path. -/
def fs10W : Fs := fun q =>
  if q = "keys/s-private-node1.pem" then some (FsNode.file [FileChunk.pemE (.keyP8 0)])
  else none

/-! Lemmas about the file-system primitives. -/

theorem Fs.write_self (fs : Fs) (p : String) (cs : List FileChunk) :
    fs.write p cs p = some (FsNode.file cs) := by
  simp [Fs.write]

theorem Fs.write_other (fs : Fs) (p q : String) (cs : List FileChunk) (h : q ≠ p) :
    fs.write p cs q = fs q := by
  simp [Fs.write, h]

theorem Fs.append_other (fs : Fs) (p q : String) (c : FileChunk) (h : q ≠ p) :
    fs.append p c q = fs q := by
  simp [Fs.append, h]

theorem Fs.append_self_file (fs : Fs) (p : String) (c : FileChunk)
    (l : List FileChunk) (h : fs p = some (FsNode.file l)) :
    fs.append p c p = some (FsNode.file (l ++ [c])) := by
  simp [Fs.append, h]

theorem Fs.append_self_none (fs : Fs) (p : String) (c : FileChunk)
    (h : fs p = none) : fs.append p c p = some (FsNode.file [c]) := by
  simp [Fs.append, h]

theorem Fs.remove_other (fs : Fs) (p q : String) (h : q ≠ p) :
    fs.remove p q = fs q := by
  simp [Fs.remove, h]

theorem Fs.remove_self (fs : Fs) (p : String) : fs.remove p p = none := by
  simp [Fs.remove]

theorem Fs.mkdir_other (fs : Fs) (p q : String) (h : q ≠ p) :
    fs.mkdir p q = fs q := by
  simp [Fs.mkdir, h]

theorem Fs.cpSync_other (fs : Fs) (src dest q : String) (h : q ≠ dest) :
    fs.cpSync src dest q = fs q := by
  unfold Fs.cpSync
  cases fs src <;> simp [h]

theorem foldAppend_other (p : String) (cs : List FileChunk) (fs : Fs)
    (q : String) (h : q ≠ p) :
    (cs.foldl (fun acc cp => Fs.append acc p cp) fs) q = fs q := by
  induction cs generalizing fs with
  | nil => rfl
  | cons c rest ih =>
    simp only [List.foldl]
    rw [ih (fs.append p c), Fs.append_other fs p q c h]

theorem foldAppend_file (p : String) (cs : List FileChunk) (l : List FileChunk)
    (fs : Fs) (h : fs p = some (FsNode.file l)) :
    (cs.foldl (fun acc cp => Fs.append acc p cp) fs) p
      = some (FsNode.file (l ++ cs)) := by
  induction cs generalizing l fs with
  | nil => simpa using h
  | cons c rest ih =>
    simp only [List.foldl]
    have h₁ : (fs.append p c) p = some (FsNode.file (l ++ [c])) :=
      Fs.append_self_file fs p c l h
    rw [ih (l ++ [c]) (fs.append p c) h₁]
    simp

theorem foldAppend_none (p : String) (cs : List FileChunk) (fs : Fs)
    (h : fs p = none) (hne : cs ≠ []) :
    (cs.foldl (fun acc cp => Fs.append acc p cp) fs) p = some (FsNode.file cs) := by
  cases cs with
  | nil => exact absurd rfl hne
  | cons c rest =>
    simp only [List.foldl]
    have h₁ : (fs.append p c) p = some (FsNode.file [c]) := Fs.append_self_none fs p c h
    rw [foldAppend_file p rest [c] (fs.append p c) h₁]
    simp

/-! Lemmas about storeNodeKey. -/

theorem storeFsResult_other (kp : NodeKeyObject) (files : NodeKeyFiles) (fs : Fs)
    (q : String) (h₁ : q ≠ files.privateKeyFile) (h₂ : q ≠ files.certificateFile) :
    storeFsResult kp files fs q = fs q := by
  unfold storeFsResult
  rw [foldAppend_other _ _ _ _ h₂]
  by_cases hex : ((fs.write files.privateKeyFile
      [convertPrivateKeyToPem kp.privateKey]).existsSync files.certificateFile) <;>
    simp [hex, Fs.remove_other, Fs.write_other, h₁, h₂]

theorem storeFsResult_priv (kp : NodeKeyObject) (files : NodeKeyFiles) (fs : Fs)
    (hne : files.privateKeyFile ≠ files.certificateFile) :
    storeFsResult kp files fs files.privateKeyFile
      = some (FsNode.file [convertPrivateKeyToPem kp.privateKey]) := by
  unfold storeFsResult
  rw [foldAppend_other _ _ _ _ hne]
  by_cases hex : ((fs.write files.privateKeyFile
      [convertPrivateKeyToPem kp.privateKey]).existsSync files.certificateFile) <;>
    simp [hex, Fs.remove_other _ _ _ hne, Fs.write_self]

theorem storeFsResult_cert (kp : NodeKeyObject) (files : NodeKeyFiles) (fs : Fs)
    (hchain : kp.certificateChain ≠ []) :
    storeFsResult kp files fs files.certificateFile
      = some (FsNode.file (kp.certificateChain.map (fun c => FileChunk.pemE (.certE c)))) := by
  unfold storeFsResult
  have hmap : kp.certificateChain.map (fun c => FileChunk.pemE (.certE c)) ≠ [] := by
    simpa using hchain
  by_cases hex : ((fs.write files.privateKeyFile
      [convertPrivateKeyToPem kp.privateKey]).existsSync files.certificateFile)
  · rw [if_pos hex]
    exact foldAppend_none _ _ _ (Fs.remove_self _ _) hmap
  · rw [if_neg hex]
    have hnone : (fs.write files.privateKeyFile
        [convertPrivateKeyToPem kp.privateKey]) files.certificateFile = none := by
      unfold Fs.existsSync at hex
      exact Option.not_isSome_iff_eq_none.mp hex
    exact foldAppend_none _ _ _ hnone hmap

theorem storeNodeKey_eq_of_guards (nodeId : String) (kp : NodeKeyObject)
    (keysDir : String) (files : NodeKeyFiles) (fs : Fs)
    (h₁ : nodeId ≠ "") (h₂ : keysDir ≠ "") (h₃ : files.privateKeyFile ≠ "")
    (h₄ : files.certificateFile ≠ "") :
    storeNodeKey nodeId kp keysDir files fs
      = Except.ok (files, storeFsResult kp files fs) := by
  simp [storeNodeKey, h₁, h₂, h₃, h₄]

theorem storeNodeKey_ok_elim {nodeId : String} {kp : NodeKeyObject}
    {keysDir : String} {files : NodeKeyFiles} {fs : Fs} {nf : NodeKeyFiles} {fs' : Fs}
    (h : storeNodeKey nodeId kp keysDir files fs = Except.ok (nf, fs')) :
    nodeId ≠ "" ∧ keysDir ≠ "" ∧ files.privateKeyFile ≠ ""
      ∧ files.certificateFile ≠ "" ∧ nf = files ∧ fs' = storeFsResult kp files fs := by
  by_cases h₁ : nodeId = ""
  · simp [storeNodeKey, h₁] at h
  by_cases h₂ : keysDir = ""
  · simp [storeNodeKey, h₁, h₂] at h
  by_cases h₃ : files.privateKeyFile = ""
  · simp [storeNodeKey, h₁, h₂, h₃] at h
  by_cases h₄ : files.certificateFile = ""
  · simp [storeNodeKey, h₁, h₂, h₃, h₄] at h
  rw [storeNodeKey_eq_of_guards nodeId kp keysDir files fs h₁ h₂ h₃ h₄] at h
  have h' := Except.ok.inj h
  exact ⟨h₁, h₂, h₃, h₄, (congrArg Prod.fst h').symm, (congrArg Prod.snd h').symm⟩

/-! Lemmas about PEM decoding and certificate parsing. -/

theorem pemDecode_certs (cs : List X509Cert) :
    pemDecode (cs.map (fun c => FileChunk.pemE (.certE c))) = cs.map PemEntry.certE := by
  induction cs with
  | nil => rfl
  | cons c rest ih => simp [pemDecode] at ih ⊢; exact ih

theorem parseX509Certs_certs (cs : List X509Cert) :
    parseX509Certs (cs.map PemEntry.certE) = Except.ok cs := by
  induction cs with
  | nil => rfl
  | cons c rest ih => simp [parseX509Certs, ih, Except.map]

/-! Lemmas about chain building and ecKey. -/

theorem buildChain_nil (leaf : X509Cert) : buildChain [] leaf = [leaf] := rfl

theorem buildChain_single (sc cert : X509Cert) (hIss : cert.issuer = sc.subject)
    (hVer : pubOf cert.signedWith = sc.publicKey) :
    buildChain [sc] cert = [cert, sc] := by
  simp [buildChain, buildChainAux, findIssuerCert, certVerifySigOnly, List.find?, hIss, hVer]

theorem ecKey_ok_elim {nodeId keyPref : String} {sk : NodeKeyObject}
    {fresh : Nat} {kp : NodeKeyObject}
    (h : ecKey nodeId keyPref (some sk) fresh = Except.ok kp) :
    nodeId ≠ "" ∧ keyPref ≠ ""
      ∧ certVerifySigOnly (ecCert nodeId keyPref sk fresh) sk.certificate.publicKey = true
      ∧ kp = { privateKey := fresh
               certificate := ecCert nodeId keyPref sk fresh
               certificateChain := buildChain [sk.certificate] (ecCert nodeId keyPref sk fresh) } := by
  by_cases h₁ : nodeId = "" <;> by_cases h₂ : keyPref = "" <;>
    by_cases h₃ : certVerifySigOnly (ecCert nodeId keyPref sk fresh) sk.certificate.publicKey <;>
    simp [ecKey, h₁, h₂, h₃] at h <;> simp_all

theorem ecKey_verify_fail {nodeId keyPref : String} {sk : NodeKeyObject} {fresh : Nat}
    (h₁ : nodeId ≠ "") (h₂ : keyPref ≠ "")
    (h₃ : certVerifySigOnly (ecCert nodeId keyPref sk fresh) sk.certificate.publicKey = false) :
    ecKey nodeId keyPref (some sk) fresh
      = Except.error (.fullstackTesting
          ("failed to generate " ++ keyPref ++
            "-key: failed to verify generated certificate for " ++
            renderNodeFriendlyName keyPref nodeId)) := by
  simp [ecKey, h₁, h₂, h₃]

/-- C6: every key pair produced by generateSigningKey has a self-signed
certificate (issuer equals subject), and every key pair produced by
generateAgreementKey has a certificate whose issuer equals the signing
certificate subject and a certificate chain [agreement certificate, signing
certificate] terminating at the node signing certificate. -/
theorem c6_signing_self_signed_agreement_chain
    (nodeId : String) (freshS : Nat) (signingKey kp : NodeKeyObject) (freshA : Nat)
    (h : generateAgreementKey nodeId (some signingKey) freshA = Except.ok kp) :
    (generateSigningKey nodeId freshS).certificate.issuer
        = (generateSigningKey nodeId freshS).certificate.subject
      ∧ kp.certificate.issuer = signingKey.certificate.subject
      ∧ kp.certificateChain = [kp.certificate, signingKey.certificate]
      ∧ kp.certificateChain.getLast? = some signingKey.certificate := by
  have h' : ecKey nodeId AGREEMENT_KEY_PREF (some signingKey) freshA = Except.ok kp := h
  obtain ⟨hn, hp, hver, hkp⟩ := ecKey_ok_elim h'
  have hVer : pubOf (ecCert nodeId AGREEMENT_KEY_PREF signingKey freshA).signedWith
      = signingKey.certificate.publicKey := by
    simpa [certVerifySigOnly] using hver
  have hch := buildChain_single signingKey.certificate
    (ecCert nodeId AGREEMENT_KEY_PREF signingKey freshA) rfl hVer
  subst hkp
  refine ⟨rfl, rfl, ?_, ?_⟩
  · simpa using hch
  · simp [hch]

/-- C6 witness at the concrete signing key skW and fresh handle 1. -/
theorem c6_witness :
    generateAgreementKey "node1" (some skW) 1 = Except.ok akW
      ∧ ((generateSigningKey "node1" 0).certificate.issuer
            = (generateSigningKey "node1" 0).certificate.subject
          ∧ akW.certificate.issuer = skW.certificate.subject
          ∧ akW.certificateChain = [akW.certificate, skW.certificate]
          ∧ akW.certificateChain.getLast? = some skW.certificate) :=
  ⟨rfl, c6_signing_self_signed_agreement_chain "node1" 0 skW akW 1 rfl⟩

/-- C4 counterexample: for a corrupt signing key the verification failure is
raised as a FullstackTestingError (wrapped by the catch block), not as the
CertificateVerificationError the claim names; no such error class exists in
the code. -/
theorem c4_counterexample :
    generateAgreementKey "node1" (some badSkW) 7
        = Except.error (SoloError.fullstackTesting
            "failed to generate a-key: failed to verify generated certificate for a-node1")
      ∧ isCertificateVerificationError (generateAgreementKey "node1" (some badSkW) 7) = false :=
  ⟨rfl, rfl⟩

/-- C4 (amended): generateAgreementKey creates an EC key pair, issues a
certificate whose issuer is the signing certificate subject and which is
signed with the signing private key, verifies the certificate signature
against the issuer public key before returning (every successful result has
passed verification), and when verification fails it fails with a fatal
FullstackTestingError wrapping the verification failure; the function
contains no retry. -/
theorem c4_agreement_key_verification
    (nodeId : String) (signingKey : NodeKeyObject) (fresh : Nat) (hn : nodeId ≠ "") :
    (∀ kp, generateAgreementKey nodeId (some signingKey) fresh = Except.ok kp →
        kp.certificate.issuer = signingKey.certificate.subject
          ∧ kp.certificate.signedWith = signingKey.privateKey
          ∧ certVerifySigOnly kp.certificate signingKey.certificate.publicKey = true)
      ∧ (pubOf signingKey.privateKey ≠ signingKey.certificate.publicKey →
          generateAgreementKey nodeId (some signingKey) fresh
            = Except.error (SoloError.fullstackTesting
                ("failed to generate " ++ AGREEMENT_KEY_PREF ++
                  "-key: failed to verify generated certificate for " ++
                  renderNodeFriendlyName AGREEMENT_KEY_PREF nodeId))) := by
  constructor
  · intro kp h
    have h' : ecKey nodeId AGREEMENT_KEY_PREF (some signingKey) fresh = Except.ok kp := h
    obtain ⟨_, _, hver, hkp⟩ := ecKey_ok_elim h'
    subst hkp
    exact ⟨rfl, rfl, hver⟩
  · intro hbad
    have h₃ : certVerifySigOnly (ecCert nodeId AGREEMENT_KEY_PREF signingKey fresh)
        signingKey.certificate.publicKey = false := by
      simp only [certVerifySigOnly, ecCert]
      simpa using hbad
    exact ecKey_verify_fail hn (by decide) h₃

/-- C4 witness at the concrete well-formed signing key skW. -/
theorem c4_witness :
    ("node1" : String) ≠ ""
      ∧ ((∀ kp, generateAgreementKey "node1" (some skW) 3 = Except.ok kp →
            kp.certificate.issuer = skW.certificate.subject
              ∧ kp.certificate.signedWith = skW.privateKey
              ∧ certVerifySigOnly kp.certificate skW.certificate.publicKey = true)
          ∧ (pubOf skW.privateKey ≠ skW.certificate.publicKey →
              generateAgreementKey "node1" (some skW) 3
                = Except.error (SoloError.fullstackTesting
                    ("failed to generate " ++ AGREEMENT_KEY_PREF ++
                      "-key: failed to verify generated certificate for " ++
                      renderNodeFriendlyName AGREEMENT_KEY_PREF "node1")))) :=
  ⟨by decide, c4_agreement_key_verification "node1" skW 3 (by decide)⟩

/-- C5: storing a key pair with storeNodeKey and loading it back with
loadNodeKey from the same file names yields a key pair whose certificate has
the same serial number, subject and public key as the original, and whose
private key produces signatures that the certificate public key verifies.
The key pair is assumed well formed as the generators produce it: the chain
starts with the certificate, and the certificate carries the public key
paired with the private key. -/
theorem c5_store_load_round_trip
    (nodeId keysDir : String) (kp : NodeKeyObject) (files nf : NodeKeyFiles)
    (algo : KeyAlgo) (fs fs' : Fs)
    (hstore : storeNodeKey nodeId kp keysDir files fs = Except.ok (nf, fs'))
    (hne : files.privateKeyFile ≠ files.certificateFile)
    (hchain : kp.certificateChain.head? = some kp.certificate)
    (hwf : pubOf kp.privateKey = kp.certificate.publicKey) :
    ∃ lkp, loadNodeKey nodeId keysDir (some algo) files fs' = Except.ok lkp
      ∧ lkp.privateKey = kp.privateKey
      ∧ lkp.certificate.serialNumber = kp.certificate.serialNumber
      ∧ lkp.certificate.subject = kp.certificate.subject
      ∧ lkp.certificate.publicKey = kp.certificate.publicKey
      ∧ signVerifies lkp.privateKey lkp.certificate.publicKey = true := by
  obtain ⟨h₁, h₂, h₃, h₄, hnf, hfs⟩ := storeNodeKey_ok_elim hstore
  subst hfs
  cases hc : kp.certificateChain with
  | nil => rw [hc] at hchain; simp at hchain
  | cons c₀ rest =>
    have hc₀ : c₀ = kp.certificate := by
      rw [hc] at hchain; simpa using hchain
    have hpriv : storeFsResult kp files fs files.privateKeyFile
        = some (FsNode.file [FileChunk.pemE (.keyP8 kp.privateKey)]) :=
      storeFsResult_priv kp files fs hne
    have hcertf : storeFsResult kp files fs files.certificateFile
        = some (FsNode.file ((c₀ :: rest).map (fun c => FileChunk.pemE (.certE c)))) := by
      rw [← hc]
      exact storeFsResult_cert kp files fs (by rw [hc]; simp)
    have hconv : convertPemToPrivateKey [FileChunk.pemE (.keyP8 kp.privateKey)] (some algo)
        = Except.ok kp.privateKey := by
      simp [convertPemToPrivateKey, pemDecode]
    have hparse : parseX509Certs
        (pemDecode ((c₀ :: rest).map (fun c => FileChunk.pemE (.certE c))))
          = Except.ok (c₀ :: rest) := by
      rw [pemDecode_certs, parseX509Certs_certs]
    refine ⟨{ privateKey := kp.privateKey, certificate := c₀
              certificateChain := buildChain rest c₀ }, ?_, rfl, ?_, ?_, ?_, ?_⟩
    · have hparse' := hparse
      simp only [List.map_cons] at hparse'
      simp [loadNodeKey, h₁, h₂, h₃, h₄, hpriv, hcertf, hconv, hparse']
    · rw [hc₀]
    · rw [hc₀]
    · rw [hc₀]
    · simp [signVerifies, hc₀, hwf]

/-- C5 witness: the concrete signing key skW stored into the empty file
system and loaded back. -/
theorem c5_witness :
    storeNodeKey "node1" skW "keys" filesW fsEmptyW = Except.ok (filesW, fsStoredW)
      ∧ filesW.privateKeyFile ≠ filesW.certificateFile
      ∧ skW.certificateChain.head? = some skW.certificate
      ∧ pubOf skW.privateKey = skW.certificate.publicKey
      ∧ (∃ lkp, loadNodeKey "node1" "keys" (some KeyAlgo.signingKeyAlgo) filesW fsStoredW
            = Except.ok lkp
          ∧ lkp.privateKey = skW.privateKey
          ∧ lkp.certificate.serialNumber = skW.certificate.serialNumber
          ∧ lkp.certificate.subject = skW.certificate.subject
          ∧ lkp.certificate.publicKey = skW.certificate.publicKey
          ∧ signVerifies lkp.privateKey lkp.certificate.publicKey = true) :=
  ⟨rfl, by decide, rfl, rfl,
    c5_store_load_round_trip "node1" "keys" skW filesW filesW KeyAlgo.signingKeyAlgo
      fsEmptyW fsStoredW rfl (by decide) rfl rfl⟩

/-- C7: a successful storeNodeKey writes the private key as a single PEM
block, and leaves the certificate file holding exactly the PEM blocks of
this call certificate chain whatever the prior file-system state, so
repeated stores never grow the certificate bundle. -/
theorem c7_store_replaces_certificate_file
    (nodeId keysDir : String) (kp : NodeKeyObject) (files nf : NodeKeyFiles) (fs fs' : Fs)
    (hstore : storeNodeKey nodeId kp keysDir files fs = Except.ok (nf, fs'))
    (hne : files.privateKeyFile ≠ files.certificateFile)
    (hchain : kp.certificateChain ≠ []) :
    fs' files.privateKeyFile = some (FsNode.file [convertPrivateKeyToPem kp.privateKey])
      ∧ fs' files.certificateFile
          = some (FsNode.file (kp.certificateChain.map (fun c => FileChunk.pemE (.certE c)))) := by
  obtain ⟨_, _, _, _, _, hfs⟩ := storeNodeKey_ok_elim hstore
  subst hfs
  exact ⟨storeFsResult_priv kp files fs hne, storeFsResult_cert kp files fs hchain⟩

/-- C7 witness at a concrete store into the empty file system. -/
theorem c7_witness :
    storeNodeKey "node1" skW "keys" filesW fsEmptyW = Except.ok (filesW, fsStoredW)
      ∧ filesW.privateKeyFile ≠ filesW.certificateFile
      ∧ skW.certificateChain ≠ []
      ∧ (fsStoredW filesW.privateKeyFile
            = some (FsNode.file [convertPrivateKeyToPem skW.privateKey])
          ∧ fsStoredW filesW.certificateFile
              = some (FsNode.file (skW.certificateChain.map (fun c => FileChunk.pemE (.certE c))))) :=
  ⟨rfl, by decide, by decide,
    c7_store_replaces_certificate_file "node1" "keys" skW filesW filesW fsEmptyW fsStoredW
      rfl (by decide) (by decide)⟩

/-- C8: convertPemToPrivateKey imports the last PEM block of the container:
whenever the last decoded block is a key block it is the imported one; in
particular a single-block file yields that block, and a cert-then-key bundle
yields the trailing key block. -/
theorem c8_convert_pem_takes_last_block
    (chunks : List FileChunk) (algo : KeyAlgo) (k : Nat) (certs : List X509Cert)
    (h : (pemDecode chunks).getLast? = some (PemEntry.keyP8 k)) :
    convertPemToPrivateKey chunks (some algo) = Except.ok k
      ∧ convertPemToPrivateKey [FileChunk.pemE (.keyP8 k)] (some algo) = Except.ok k
      ∧ convertPemToPrivateKey
          (certs.map (fun c => FileChunk.pemE (.certE c)) ++ [FileChunk.pemE (.keyP8 k)])
          (some algo) = Except.ok k := by
  refine ⟨?_, ?_, ?_⟩
  · simp [convertPemToPrivateKey, h]
  · simp [convertPemToPrivateKey, pemDecode]
  · have hd : pemDecode
        (certs.map (fun c => FileChunk.pemE (.certE c)) ++ [FileChunk.pemE (.keyP8 k)])
          = certs.map PemEntry.certE ++ [PemEntry.keyP8 k] := by
      have hleft := pemDecode_certs certs
      simp only [pemDecode, List.filterMap_append] at hleft ⊢
      rw [hleft]
      rfl
    simp [convertPemToPrivateKey, hd]

/-! Lemmas about keytool runs. -/

theorem str_ne_of_get (s t : String) (n : Nat)
    (h : s.data.get? n ≠ t.data.get? n) : s ≠ t := by
  intro he
  exact h (congrArg (fun z : String => z.data.get? n) he)

theorem runOps_frame (kt : Keytool) (hframe : KeytoolFramed kt) (q : String) :
    ∀ (ops : List KeytoolOp) (fs : Fs) (tr : List KeytoolOp),
      (∀ op ∈ ops, q ∉ op.paths) →
      ((runOps kt ops fs tr).1.1) q = fs q := by
  intro ops
  induction ops with
  | nil => intro fs tr _; rfl
  | cons op rest ih =>
    intro fs tr hq
    have hfr : (kt.run op fs).1 q = fs q := hframe op fs q (hq op (List.mem_cons_self _ _))
    unfold runOps
    cases hkr : kt.run op fs with
    | mk fs₂ err =>
      rw [hkr] at hfr
      cases err with
      | none =>
        simpa using (ih fs₂ (tr ++ [op])
          (fun o ho => hq o (List.mem_cons_of_mem _ ho))).trans hfr
      | some e => simpa using hfr

theorem runOps_ok_frame (kt : Keytool) (hframe : KeytoolFramed kt) (q : String)
    (ops : List KeytoolOp) (fs fs₁ : Fs) (tr tr₁ : List KeytoolOp)
    (h : runOps kt ops fs tr = ((fs₁, tr₁), none))
    (hq : ∀ op ∈ ops, q ∉ op.paths) : fs₁ q = fs q := by
  have := runOps_frame kt hframe q ops fs tr hq
  rw [h] at this
  exact this

theorem str_ne_append_of_get (s c b : String) (k : Nat) (h₁ : k < c.data.length)
    (h : s.data.get? k ≠ c.data.get? k) : s ≠ c ++ b := by
  intro he
  apply h
  rw [he, strData_append]
  simp only [List.get?_eq_getElem?]
  exact List.getElem?_append_left h₁

theorem ne_pathJoin_self (d n : String) : d ≠ pathJoin d n := by
  intro he
  have hlen : d.data.length
      = d.data.length + ("/" : String).data.length + n.data.length := by
    conv_lhs => rw [he]
    unfold pathJoin
    rw [strData_append, strData_append]
    simp [List.length_append]
    omega
  have hslash : ("/" : String).data.length = 1 := by decide
  rw [hslash] at hlen
  omega

theorem privatePfxOps_not_mem_paths (nodeId tmpDir signedKeyAlias m q : String)
    (hq : ∀ n, q ≠ pathJoin tmpDir n) :
    ∀ op ∈ privatePfxOps nodeId tmpDir (pathJoin tmpDir m) signedKeyAlias,
      q ∉ op.paths := by
  intro op hop
  simp only [privatePfxOps, signedKeyOps, List.mem_cons, List.mem_append,
    List.not_mem_nil, or_false] at hop
  rcases hop with rfl | (rfl | rfl | rfl | rfl) | (rfl | rfl | rfl | rfl) <;>
    simp only [KeytoolOp.paths, List.mem_cons, List.not_mem_nil, or_false] <;>
    first
      | exact hq _
      | exact not_or.mpr ⟨hq _, hq _⟩
      | exact not_or.mpr ⟨hq _, not_or.mpr ⟨hq _, hq _⟩⟩

/-- C3: when private-nodeId.pfx already exists in the keys directory,
generatePrivatePfxKeys performs no keytool invocation and no file write and
returns the existing path; consequently, after any successful call a second
call for the same node is a no-op returning the same path. -/
theorem c3_generate_private_pfx_idempotent
    (kt : Keytool) (nodeId keysDir tmpDir tmpDir₂ : String) (fs : Fs)
    (h₁ : nodeId ≠ "") (h₂ : keysDir ≠ "")
    (h₃ : fs.existsSync keysDir = true)
    (hframe : KeytoolFramed kt)
    (htmp : ∀ n, keysDir ≠ pathJoin tmpDir n) :
    (fs.existsSync (pathJoin keysDir ("private-" ++ nodeId ++ ".pfx")) = true →
        generatePrivatePfxKeys kt nodeId keysDir tmpDir fs
          = ⟨fs, [], Except.ok (pathJoin keysDir ("private-" ++ nodeId ++ ".pfx"))⟩)
      ∧ (∀ (fs' : Fs) (tr : List KeytoolOp) (p : String),
          generatePrivatePfxKeys kt nodeId keysDir tmpDir fs = ⟨fs', tr, Except.ok p⟩ →
          generatePrivatePfxKeys kt nodeId keysDir tmpDir₂ fs' = ⟨fs', [], Except.ok p⟩) := by
  constructor
  · intro hex
    simp [generatePrivatePfxKeys, h₁, h₂, h₃, hex]
  · intro fs' tr p hrun
    by_cases hex : fs.existsSync (pathJoin keysDir ("private-" ++ nodeId ++ ".pfx")) = true
    · have heq : generatePrivatePfxKeys kt nodeId keysDir tmpDir fs
          = ⟨fs, [], Except.ok (pathJoin keysDir ("private-" ++ nodeId ++ ".pfx"))⟩ := by
        simp [generatePrivatePfxKeys, h₁, h₂, h₃, hex]
      rw [heq] at hrun
      injection hrun with hfs' htr hres
      injection hres with hp
      subst hfs'
      subst hp
      simp [generatePrivatePfxKeys, h₁, h₂, h₃, hex]
    · have hexF : fs.existsSync (pathJoin keysDir ("private-" ++ nodeId ++ ".pfx")) = false :=
        eq_false_of_ne_true hex
      have heq : generatePrivatePfxKeys kt nodeId keysDir tmpDir fs
          = generatePrivatePfxMain kt nodeId keysDir tmpDir fs := by
        simp [generatePrivatePfxKeys, h₁, h₂, h₃, hexF]
      rw [heq] at hrun
      unfold generatePrivatePfxMain at hrun
      rcases hro : runOps kt
          (privatePfxOps nodeId tmpDir (pathJoin tmpDir ("private-" ++ nodeId ++ ".pfx"))
            (SIGNING_KEY_PREF ++ "-" ++ nodeId)) fs [] with ⟨⟨fs₁, tr₁⟩, err⟩
      rw [hro] at hrun
      cases err with
      | some e =>
        have hrun' : (⟨fs₁, tr₁, Except.error e⟩ : KeytoolRunResult)
            = ⟨fs', tr, Except.ok p⟩ := hrun
        simp at hrun'
      | none =>
        have hrun' : (match fs₁ (pathJoin tmpDir ("private-" ++ nodeId ++ ".pfx")) with
            | none => (⟨fs₁, tr₁, Except.error (.jsRuntime "cpSync: ENOENT")⟩ : KeytoolRunResult)
            | some d =>
              ⟨fun q => if q = pathJoin keysDir ("private-" ++ nodeId ++ ".pfx") then some d
                  else fs₁ q,
                tr₁, Except.ok (pathJoin keysDir ("private-" ++ nodeId ++ ".pfx"))⟩)
            = ⟨fs', tr, Except.ok p⟩ := hrun
        cases hd : fs₁ (pathJoin tmpDir ("private-" ++ nodeId ++ ".pfx")) with
        | none => rw [hd] at hrun'; simp at hrun'
        | some d =>
          rw [hd] at hrun'
          simp only [KeytoolRunResult.mk.injEq, Except.ok.injEq] at hrun'
          obtain ⟨hfs', htr, hp⟩ := hrun'
          have hkeys₁ : fs₁ keysDir = fs keysDir :=
            runOps_ok_frame kt hframe keysDir _ fs fs₁ [] tr₁ hro
              (privatePfxOps_not_mem_paths nodeId tmpDir _ _ keysDir htmp)
          have hkeysNe : keysDir ≠ pathJoin keysDir ("private-" ++ nodeId ++ ".pfx") :=
            ne_pathJoin_self _ _
          have hkeys' : fs' keysDir = fs keysDir := by
            rw [← hfs']
            simp [if_neg hkeysNe, hkeys₁]
          have hex' : fs'.existsSync keysDir = true := by
            unfold Fs.existsSync
            rw [hkeys']
            exact h₃
          have hpriv' : fs'.existsSync (pathJoin keysDir ("private-" ++ nodeId ++ ".pfx"))
              = true := by
            unfold Fs.existsSync
            rw [← hfs']
            simp
          subst hp
          simp [generatePrivatePfxKeys, h₁, h₂, hex', hpriv']

/-- C3 witness: an existing private pfx file for node1 with the trivial
keytool model. -/
theorem c3_witness :
    ("node1" : String) ≠ "" ∧ ("keys" : String) ≠ ""
      ∧ fsKeysW.existsSync "keys" = true
      ∧ KeytoolFramed kt0
      ∧ (∀ n, ("keys" : String) ≠ pathJoin "tmp" n)
      ∧ ((fsKeysW.existsSync (pathJoin "keys" ("private-" ++ "node1" ++ ".pfx")) = true →
            generatePrivatePfxKeys kt0 "node1" "keys" "tmp" fsKeysW
              = ⟨fsKeysW, [], Except.ok (pathJoin "keys" ("private-" ++ "node1" ++ ".pfx"))⟩)
          ∧ (∀ (fs' : Fs) (tr : List KeytoolOp) (p : String),
              generatePrivatePfxKeys kt0 "node1" "keys" "tmp" fsKeysW = ⟨fs', tr, Except.ok p⟩ →
              generatePrivatePfxKeys kt0 "node1" "keys" "tmp2" fs' = ⟨fs', [], Except.ok p⟩)) :=
  ⟨by decide, by decide, rfl, fun _ _ _ _ => rfl,
    fun n => str_ne_append_of_get "keys" ("tmp" ++ "/") n 0 (by decide) (by decide),
    c3_generate_private_pfx_idempotent kt0 "node1" "keys" "tmp" "tmp2" fsKeysW
      (by decide) (by decide) rfl (fun _ _ _ _ => rfl)
      (fun n => str_ne_append_of_get "keys" ("tmp" ++ "/") n 0 (by decide) (by decide))⟩

/-! Lemmas about updatePublicPfxKey. -/

theorem str_ne_headAppend (t c x s : String) (k : Nat)
    (h₁ : k < t.data.length) (h₂ : k < c.data.length)
    (hne : t.data.get? k ≠ c.data.get? k) : t ≠ c ++ x ++ s := by
  intro he
  apply hne
  have h := congrArg String.data he
  rw [strData_append, strData_append] at h
  calc t.data.get? k
      = ((c.data ++ x.data) ++ s.data).get? k := by rw [h]
    _ = (c.data ++ x.data).get? k := by
        simp only [List.get?_eq_getElem?]
        exact List.getElem?_append_left (by rw [List.length_append]; omega)
    _ = c.data.get? k := by
        simp only [List.get?_eq_getElem?]
        exact List.getElem?_append_left h₂

theorem str_ne_of_revGet (s t : String) (k : Nat)
    (h : s.data.reverse.get? k ≠ t.data.reverse.get? k) : s ≠ t := by
  intro he
  exact h (congrArg (fun z : String => z.data.reverse.get? k) he)

theorem revGet_append (a s : String) (k : Nat) (h : k < s.data.length) :
    (a ++ s).data.reverse.get? k = s.data.reverse.get? k := by
  rw [strData_append, List.reverse_append]
  simp only [List.get?_eq_getElem?]
  exact List.getElem?_append_left (by simpa using h)

theorem revGet_append_shift (a s : String) (k : Nat) (hk : s.data.length ≤ k) :
    (a ++ s).data.reverse.get? k = a.data.reverse.get? (k - s.data.length) := by
  rw [strData_append, List.reverse_append]
  simp only [List.get?_eq_getElem?]
  rw [List.getElem?_append_right (by simpa using hk)]
  simp

theorem publicPfx_ne_certFile (keysDir tmpDir nodeId keyPref : String)
    (hlen : keyPref.data.length = 1)
    (hchar : keyPref.data.reverse.get? 0 ≠ some 'c') :
    pathJoin keysDir "public.pfx" ≠ pathJoin tmpDir (nodeId ++ "-cert-" ++ keyPref ++ ".pfx") := by
  apply str_ne_of_revGet _ _ 4
  have hL : (pathJoin keysDir "public.pfx").data.reverse.get? 4 = some 'c' := by
    unfold pathJoin
    rw [revGet_append _ _ 4 (by decide)]
    decide
  have h₄ : (".pfx" : String).data.length = 4 := by decide
  have h₆ : ("-cert-" : String).data.length = 6 := by decide
  have hR : (pathJoin tmpDir (nodeId ++ "-cert-" ++ keyPref ++ ".pfx")).data.reverse.get? 4
      = keyPref.data.reverse.get? 0 := by
    unfold pathJoin
    have hlen1 : 4 < (nodeId ++ "-cert-" ++ keyPref ++ ".pfx").data.length := by
      rw [strData_append, strData_append, strData_append]
      simp only [List.length_append, List.length_cons, List.length_nil]
      omega
    rw [revGet_append _ _ 4 hlen1]
    rw [revGet_append_shift _ _ 4 (by rw [h₄])]
    rw [h₄]
    exact revGet_append _ _ 0 (by omega)
  rw [hL, hR]
  exact fun he => hchar he.symm

theorem publicPfx_name_ne_privatePfx (nodeId : String) :
    ("public.pfx" : String) ≠ "private-" ++ nodeId ++ ".pfx" :=
  str_ne_headAppend "public.pfx" "private-" nodeId ".pfx" 1 (by decide) (by decide) (by decide)

theorem publicPfx_not_mem_exportImport_paths (nodeId keysDir tmpDir : String)
    (hdir : tmpDir ≠ keysDir) (keyPref : String)
    (hk : keyPref = SIGNING_KEY_PREF ∨ keyPref = AGREEMENT_KEY_PREF
        ∨ keyPref = ENCRYPTION_KEY_PREF) :
    ∀ op ∈ exportImportOps nodeId keysDir tmpDir (pathJoin tmpDir PUBLIC_PFX) keyPref,
      pathJoin keysDir "public.pfx" ∉ op.paths := by
  have hpriv : pathJoin keysDir "public.pfx"
      ≠ pathJoin keysDir ("private-" ++ nodeId ++ ".pfx") :=
    pathJoin_ne_of_name_ne (publicPfx_name_ne_privatePfx nodeId)
  have htmpPub : pathJoin keysDir "public.pfx" ≠ pathJoin tmpDir PUBLIC_PFX :=
    pathJoin_ne_of_dir_ne (fun he => hdir he.symm)
  have hcert : pathJoin keysDir "public.pfx"
      ≠ pathJoin tmpDir (nodeId ++ "-cert-" ++ keyPref ++ ".pfx") := by
    rcases hk with rfl | rfl | rfl <;>
      exact publicPfx_ne_certFile _ _ _ _ (by decide) (by decide)
  intro op hop
  simp only [exportImportOps, List.mem_cons, List.not_mem_nil, or_false] at hop
  rcases hop with rfl | rfl <;>
    simp only [KeytoolOp.paths, List.mem_cons, List.not_mem_nil, or_false] <;>
    exact not_or.mpr ⟨by assumption, by assumption⟩

theorem updatePublicPfxLoop_frame (kt : Keytool) (hframe : KeytoolFramed kt)
    (keysDir tmpDir : String) (q : String)
    (hq : ∀ nodeId keyPref,
        (keyPref = SIGNING_KEY_PREF ∨ keyPref = AGREEMENT_KEY_PREF
          ∨ keyPref = ENCRYPTION_KEY_PREF) →
        ∀ op ∈ exportImportOps nodeId keysDir tmpDir (pathJoin tmpDir PUBLIC_PFX) keyPref,
          q ∉ op.paths) :
    ∀ (nodeIds : List String) (fs : Fs) (tr : List KeytoolOp),
      ((updatePublicPfxLoop kt keysDir tmpDir (pathJoin tmpDir PUBLIC_PFX) nodeIds fs tr).1.1) q
        = fs q := by
  intro nodeIds
  induction nodeIds with
  | nil => intro fs tr; rfl
  | cons n rest ih =>
    intro fs tr
    have hops : ∀ op ∈ exportImportOps n keysDir tmpDir (pathJoin tmpDir PUBLIC_PFX)
          SIGNING_KEY_PREF
        ++ exportImportOps n keysDir tmpDir (pathJoin tmpDir PUBLIC_PFX) AGREEMENT_KEY_PREF
        ++ exportImportOps n keysDir tmpDir (pathJoin tmpDir PUBLIC_PFX) ENCRYPTION_KEY_PREF,
        q ∉ op.paths := by
      intro op hop
      rcases List.mem_append.mp hop with hop | hop
      · rcases List.mem_append.mp hop with hop | hop
        · exact hq n SIGNING_KEY_PREF (Or.inl rfl) op hop
        · exact hq n AGREEMENT_KEY_PREF (Or.inr (Or.inl rfl)) op hop
      · exact hq n ENCRYPTION_KEY_PREF (Or.inr (Or.inr rfl)) op hop
    unfold updatePublicPfxLoop
    by_cases hex : fs.existsSync (pathJoin keysDir ("private-" ++ n ++ ".pfx")) = true
    · rw [if_neg (by simp [hex])]
      rcases hro : runOps kt
          (exportImportOps n keysDir tmpDir (pathJoin tmpDir PUBLIC_PFX) SIGNING_KEY_PREF
            ++ exportImportOps n keysDir tmpDir (pathJoin tmpDir PUBLIC_PFX) AGREEMENT_KEY_PREF
            ++ exportImportOps n keysDir tmpDir (pathJoin tmpDir PUBLIC_PFX) ENCRYPTION_KEY_PREF)
          fs tr with ⟨⟨fs₁, tr₁⟩, err⟩
      have hfs₁ : fs₁ q = fs q := by
        have := runOps_frame kt hframe q _ fs tr hops
        rw [hro] at this
        exact this
      cases err with
      | some e => simpa using hfs₁
      | none => simpa using (ih fs₁ tr₁).trans hfs₁
    · rw [if_pos (by simp [hex])]

/-- C9: updatePublicPfxKey mutates the shared container atomically with
respect to errors: the work happens on a temporary copy under tmpDir and the
public.pfx in the keys directory is rewritten only after every export
and import has succeeded, so on any failing run (missing pfx or failing
keytool invocation) the public.pfx in the keys directory is unchanged. The
keytool collaborator is assumed framed: it touches only the paths passed to
it. -/
theorem c9_update_public_pfx_error_atomic
    (kt : Keytool) (nodeIds : List String) (keysDir tmpDir : String) (fs fs' : Fs)
    (tr : List KeytoolOp) (e : SoloError)
    (hframe : KeytoolFramed kt) (hdir : tmpDir ≠ keysDir)
    (herr : updatePublicPfxKey kt nodeIds keysDir tmpDir fs = ⟨fs', tr, Except.error e⟩) :
    fs' (pathJoin keysDir "public.pfx") = fs (pathJoin keysDir "public.pfx") := by
  have hq := fun nodeId keyPref hk =>
    publicPfx_not_mem_exportImport_paths nodeId keysDir tmpDir hdir keyPref hk
  have htmpPub : pathJoin keysDir "public.pfx" ≠ pathJoin tmpDir PUBLIC_PFX :=
    pathJoin_ne_of_dir_ne (fun he => hdir he.symm)
  by_cases h₁ : keysDir = ""
  · rw [updatePublicPfxKey, if_pos h₁] at herr
    injection herr with hfs _ _
    rw [← hfs]
  · by_cases h₂ : fs.existsSync keysDir = true
    · have heq : updatePublicPfxKey kt nodeIds keysDir tmpDir fs
          = updatePublicPfxMain kt nodeIds keysDir tmpDir fs := by
        simp [updatePublicPfxKey, h₁, h₂]
      rw [heq] at herr
      unfold updatePublicPfxMain at herr
      have hfs₀ : (if fs.existsSync (pathJoin keysDir "public.pfx") then
          fs.cpSync (pathJoin keysDir "public.pfx") (pathJoin tmpDir PUBLIC_PFX)
        else fs) (pathJoin keysDir "public.pfx") = fs (pathJoin keysDir "public.pfx") := by
        by_cases hpub : fs.existsSync (pathJoin keysDir "public.pfx") = true
        · rw [if_pos hpub]
          exact Fs.cpSync_other fs _ _ _ htmpPub
        · rw [if_neg hpub]
      rcases hro : updatePublicPfxLoop kt keysDir tmpDir (pathJoin tmpDir PUBLIC_PFX) nodeIds
          (if fs.existsSync (pathJoin keysDir "public.pfx") then
            fs.cpSync (pathJoin keysDir "public.pfx") (pathJoin tmpDir PUBLIC_PFX)
          else fs) [] with ⟨⟨fs₁, tr₁⟩, err⟩
      rw [hro] at herr
      have hloop : fs₁ (pathJoin keysDir "public.pfx") = fs (pathJoin keysDir "public.pfx") := by
        have hfr := updatePublicPfxLoop_frame kt hframe keysDir tmpDir
          (pathJoin keysDir "public.pfx") hq nodeIds
          (if fs.existsSync (pathJoin keysDir "public.pfx") then
            fs.cpSync (pathJoin keysDir "public.pfx") (pathJoin tmpDir PUBLIC_PFX)
          else fs) []
        rw [hro] at hfr
        exact hfr.trans hfs₀
      cases err with
      | some e₂ =>
        have herr' : (⟨fs₁, tr₁, Except.error e₂⟩ : KeytoolRunResult)
            = ⟨fs', tr, Except.error e⟩ := herr
        injection herr' with hfs _ _
        rw [← hfs]
        exact hloop
      | none =>
        have herr' : (match fs₁ (pathJoin tmpDir PUBLIC_PFX) with
            | none => (⟨fs₁, tr₁, Except.error (.jsRuntime "cpSync: ENOENT")⟩ : KeytoolRunResult)
            | some d =>
              ⟨fun q => if q = pathJoin keysDir "public.pfx" then some d else fs₁ q, tr₁,
                Except.ok (pathJoin keysDir "public.pfx")⟩)
            = ⟨fs', tr, Except.error e⟩ := herr
        cases hd : fs₁ (pathJoin tmpDir PUBLIC_PFX) with
        | none =>
          rw [hd] at herr'
          injection herr' with hfs _ _
          rw [← hfs]
          exact hloop
        | some d =>
          rw [hd] at herr'
          injection herr' with _ _ hres
          exact absurd hres (by simp)
    · have heq : updatePublicPfxKey kt nodeIds keysDir tmpDir fs
          = ⟨fs, [], Except.error (.missingArgument "keysDir does not exist")⟩ := by
        simp [updatePublicPfxKey, h₁, h₂]
      rw [heq] at herr
      injection herr with hfs _ _
      rw [← hfs]

/-- C9 witness: a missing private pfx makes the run fail after the container
was copied to tmp, and the shared public.pfx is untouched. -/
theorem c9_witness :
    KeytoolFramed kt0 ∧ ("tmp" : String) ≠ "keys"
      ∧ updatePublicPfxKey kt0 ["node1"] "keys" "tmp" fsPubW
          = ⟨fsPubTmpW, [], Except.error (SoloError.fullstackTesting
              ("private pfx " ++ pathJoin "keys" ("private-" ++ "node1" ++ ".pfx")
                ++ " file does not exist"))⟩
      ∧ fsPubTmpW (pathJoin "keys" "public.pfx") = fsPubW (pathJoin "keys" "public.pfx") :=
  ⟨fun _ _ _ _ => rfl, by decide, rfl,
    c9_update_public_pfx_error_atomic kt0 ["node1"] "keys" "tmp" fsPubW fsPubTmpW []
      (SoloError.fullstackTesting
        ("private pfx " ++ pathJoin "keys" ("private-" ++ "node1" ++ ".pfx")
          ++ " file does not exist"))
      (fun _ _ _ _ => rfl) (by decide) rfl⟩

/-! Lemmas about getNodeAccountMap. -/

theorem mapSet_append (m : List (String × String)) (k v : String)
    (h : ∀ p ∈ m, p.1 ≠ k) : mapSet m k v = m ++ [(k, v)] := by
  induction m with
  | nil => rfl
  | cons p rest ih =>
    obtain ⟨k', v'⟩ := p
    have hk : k' ≠ k := h (k', v') (List.mem_cons_self _ _)
    simp only [mapSet, if_neg hk, List.cons_append, List.cons.injEq, true_and]
    exact ih (fun q hq => h q (List.mem_cons_of_mem _ hq))

theorem getNodeAccountMapAux_assign (realm shard : Nat) (ns : List String) :
    ∀ (i : Nat) (acc : List (String × String)), ns.Nodup →
      (∀ n ∈ ns, ∀ p ∈ acc, p.1 ≠ n) →
      getNodeAccountMapAux realm shard ns i acc
        = acc ++ assignAccountsFrom realm shard ns i := by
  induction ns with
  | nil => intro i acc _ _; simp [getNodeAccountMapAux, assignAccountsFrom]
  | cons n rest ih =>
    intro i acc hnd hfresh
    have hn : ∀ p ∈ acc, p.1 ≠ n := hfresh n (List.mem_cons_self _ _)
    have hnotmem : n ∉ rest := (List.nodup_cons.mp hnd).1
    have hrest : rest.Nodup := (List.nodup_cons.mp hnd).2
    have hfresh' : ∀ m ∈ rest, ∀ p ∈ acc ++ [(n, renderAccountId realm shard i)], p.1 ≠ m := by
      intro m hm p hp
      rcases List.mem_append.mp hp with hp | hp
      · exact hfresh m (List.mem_cons_of_mem _ hm) p hp
      · have hpn : p = (n, renderAccountId realm shard i) := by simpa using hp
        subst hpn
        intro hcontra
        have : n = m := hcontra
        exact hnotmem (this ▸ hm)
    calc getNodeAccountMapAux realm shard (n :: rest) i acc
        = getNodeAccountMapAux realm shard rest (i + 1)
            (mapSet acc n (renderAccountId realm shard i)) := rfl
      _ = getNodeAccountMapAux realm shard rest (i + 1)
            (acc ++ [(n, renderAccountId realm shard i)]) := by rw [mapSet_append _ _ _ hn]
      _ = (acc ++ [(n, renderAccountId realm shard i)])
            ++ assignAccountsFrom realm shard rest (i + 1) := ih (i + 1) _ hrest hfresh'
      _ = acc ++ assignAccountsFrom realm shard (n :: rest) i := by
            simp [assignAccountsFrom]

theorem assignAccountsFrom_append (realm shard : Nat) (ns ms : List String) :
    ∀ i, assignAccountsFrom realm shard (ns ++ ms) i
      = assignAccountsFrom realm shard ns i
        ++ assignAccountsFrom realm shard ms (i + ns.length) := by
  induction ns with
  | nil => intro i; simp [assignAccountsFrom]
  | cons n rest ih =>
    intro i
    have harith : i + 1 + rest.length = i + (rest.length + 1) := by omega
    simp only [List.cons_append, assignAccountsFrom, List.length_cons, List.cons.injEq, true_and]
    rw [show rest.append ms = rest ++ ms from rfl, ih (i + 1), harith]

theorem assignAccountsFrom_get (realm shard : Nat) (ns : List String) :
    ∀ (i j : Nat) (hj : j < ns.length),
      (assignAccountsFrom realm shard ns i).get? j
        = some (ns.get ⟨j, hj⟩, renderAccountId realm shard (i + j)) := by
  induction ns with
  | nil => intro i j hj; simp at hj
  | cons n rest ih =>
    intro i j hj
    cases j with
    | zero => simp [assignAccountsFrom]
    | succ j' =>
      have hj' : j' < rest.length := by simpa using hj
      have harith : i + 1 + j' = i + (j' + 1) := by omega
      simpa [assignAccountsFrom, harith] using ih (i + 1) j' hj'

/-- C2: getNodeAccountMap is a deterministic pure function of the ordered
node-name list: on a duplicate-free list the node at position j receives
realm.shard.(start + j), counted from the fixed start constant in iteration
order; evaluating twice yields identical output, and appending a new node
only appends the next identifier, so the entries of the previously listed
nodes are unchanged. -/
theorem c2_account_map_deterministic_and_stable
    (nodeIDs : List String) (y : String) (j : Nat) (hj : j < nodeIDs.length)
    (hnd : nodeIDs.Nodup) (hy : y ∉ nodeIDs) :
    getNodeAccountMap nodeIDs = getNodeAccountMap nodeIDs
      ∧ (getNodeAccountMap nodeIDs).get? j
          = some (nodeIDs.get ⟨j, hj⟩,
              renderAccountId HEDERA_NODE_ACCOUNT_ID_START.realm
                HEDERA_NODE_ACCOUNT_ID_START.shard
                (HEDERA_NODE_ACCOUNT_ID_START.num + j))
      ∧ getNodeAccountMap (nodeIDs ++ [y])
          = getNodeAccountMap nodeIDs
            ++ [(y, renderAccountId HEDERA_NODE_ACCOUNT_ID_START.realm
                  HEDERA_NODE_ACCOUNT_ID_START.shard
                  (HEDERA_NODE_ACCOUNT_ID_START.num + nodeIDs.length))] := by
  have hbase : ∀ (ns : List String), ns.Nodup →
      getNodeAccountMap ns
        = assignAccountsFrom HEDERA_NODE_ACCOUNT_ID_START.realm
            HEDERA_NODE_ACCOUNT_ID_START.shard ns HEDERA_NODE_ACCOUNT_ID_START.num := by
    intro ns hns
    unfold getNodeAccountMap
    rw [getNodeAccountMapAux_assign _ _ _ _ _ hns (by intro n _ p hp; simp at hp)]
    simp
  have hnd' : (nodeIDs ++ [y]).Nodup := by
    simp [List.nodup_append, hnd, hy]
  refine ⟨rfl, ?_, ?_⟩
  · rw [hbase nodeIDs hnd]
    exact assignAccountsFrom_get _ _ _ _ j hj
  · rw [hbase nodeIDs hnd, hbase (nodeIDs ++ [y]) hnd',
      assignAccountsFrom_append]
    rfl

/-- C2 witness at a three-node list with a fourth appended. -/
theorem c2_witness :
    1 < (["node1", "node2", "node3"] : List String).length
      ∧ (["node1", "node2", "node3"] : List String).Nodup
      ∧ "node4" ∉ (["node1", "node2", "node3"] : List String)
      ∧ (getNodeAccountMap ["node1", "node2", "node3"]
            = getNodeAccountMap ["node1", "node2", "node3"]
          ∧ (getNodeAccountMap ["node1", "node2", "node3"]).get? 1
              = some ((["node1", "node2", "node3"] : List String).get ⟨1, by decide⟩,
                  renderAccountId HEDERA_NODE_ACCOUNT_ID_START.realm
                    HEDERA_NODE_ACCOUNT_ID_START.shard
                    (HEDERA_NODE_ACCOUNT_ID_START.num + 1))
          ∧ getNodeAccountMap (["node1", "node2", "node3"] ++ ["node4"])
              = getNodeAccountMap ["node1", "node2", "node3"]
                ++ [("node4", renderAccountId HEDERA_NODE_ACCOUNT_ID_START.realm
                      HEDERA_NODE_ACCOUNT_ID_START.shard
                      (HEDERA_NODE_ACCOUNT_ID_START.num
                        + (["node1", "node2", "node3"] : List String).length))]) :=
  ⟨by decide, by decide, by decide,
    c2_account_map_deterministic_and_stable ["node1", "node2", "node3"] "node4" 1
      (by decide) (by decide) (by decide)⟩

/-- C8 witness: a cert-then-key bundle with key handle 5. -/
theorem c8_witness :
    (pemDecode [FileChunk.pemE (.certE akCertW), FileChunk.pemE (.keyP8 5)]).getLast?
        = some (PemEntry.keyP8 5)
      ∧ (convertPemToPrivateKey [FileChunk.pemE (.certE akCertW), FileChunk.pemE (.keyP8 5)]
            (some KeyAlgo.signingKeyAlgo) = Except.ok 5
          ∧ convertPemToPrivateKey [FileChunk.pemE (.keyP8 5)]
              (some KeyAlgo.signingKeyAlgo) = Except.ok 5
          ∧ convertPemToPrivateKey
              ([akCertW].map (fun c => FileChunk.pemE (.certE c)) ++ [FileChunk.pemE (.keyP8 5)])
              (some KeyAlgo.signingKeyAlgo) = Except.ok 5) :=
  ⟨rfl, c8_convert_pem_takes_last_block
    [FileChunk.pemE (.certE akCertW), FileChunk.pemE (.keyP8 5)]
    KeyAlgo.signingKeyAlgo 5 [akCertW] rfl⟩

/-! Lemmas about the modelled Add and Update operations. -/

theorem exceptBind_ok {ε α β : Type} {a : Except ε α} {f : α → Except ε β} {b : β}
    (h : (a >>= f) = Except.ok b) : ∃ x, a = Except.ok x ∧ f x = Except.ok b := by
  cases a with
  | error e =>
    simp only [Bind.bind, Except.bind] at h
    exact absurd h (by simp)
  | ok x =>
    refine ⟨x, rfl, ?_⟩
    simpa only [Bind.bind, Except.bind] using h

theorem prepareNodeKeyFilePaths_ok_elim {nodeId keysDir keyPref : String}
    {sf : NodeKeyFiles}
    (h : prepareNodeKeyFilePaths nodeId keysDir keyPref = Except.ok sf) :
    sf = { privateKeyFile := pathJoin keysDir (renderGossipPemPrivateKeyFile keyPref nodeId)
           certificateFile := pathJoin keysDir (renderGossipPemPublicKeyFile keyPref nodeId) } := by
  by_cases h₁ : nodeId = ""
  · simp [prepareNodeKeyFilePaths, h₁] at h
  by_cases h₂ : keysDir = ""
  · simp [prepareNodeKeyFilePaths, h₁, h₂] at h
  by_cases h₃ : keyPref = ""
  · simp [prepareNodeKeyFilePaths, h₁, h₂, h₃] at h
  simp only [prepareNodeKeyFilePaths, if_neg h₁, if_neg h₂, if_neg h₃,
    Except.ok.injEq] at h
  exact h.symm

theorem prepareTLSKeyFilePaths_ok_elim {nodeId keysDir : String} {tf : NodeKeyFiles}
    (h : prepareTLSKeyFilePaths nodeId keysDir = Except.ok tf) :
    tf = { privateKeyFile := pathJoin keysDir ("hedera-" ++ nodeId ++ ".key")
           certificateFile := pathJoin keysDir ("hedera-" ++ nodeId ++ ".crt") } := by
  by_cases h₁ : nodeId = ""
  · simp [prepareTLSKeyFilePaths, h₁] at h
  by_cases h₂ : keysDir = ""
  · simp [prepareTLSKeyFilePaths, h₁, h₂] at h
  simp only [prepareTLSKeyFilePaths, if_neg h₁, if_neg h₂, Except.ok.injEq] at h
  exact h.symm

theorem regenerateNodeKeys_frame {x keysDir : String} {fS fA fT : Nat} {fs fs' : Fs}
    (h : regenerateNodeKeys x keysDir fS fA fT fs = Except.ok fs')
    (q : String) (hq : ∀ r ∈ writtenKeyFilePaths keysDir x, q ≠ r) :
    fs' q = fs q := by
  unfold regenerateNodeKeys at h
  obtain ⟨sf, hsf, h⟩ := exceptBind_ok h
  obtain ⟨p₁, hst₁, h⟩ := exceptBind_ok h
  obtain ⟨nf₁, fs₁⟩ := p₁
  obtain ⟨ak, hak, h⟩ := exceptBind_ok h
  obtain ⟨af, haf, h⟩ := exceptBind_ok h
  obtain ⟨p₂, hst₂, h⟩ := exceptBind_ok h
  obtain ⟨nf₂, fs₂⟩ := p₂
  obtain ⟨tk, htk, h⟩ := exceptBind_ok h
  obtain ⟨tf, htf, h⟩ := exceptBind_ok h
  obtain ⟨p₃, hst₃, h⟩ := exceptBind_ok h
  obtain ⟨nf₃, fs₃⟩ := p₃
  have hfs' : fs₃ = fs' := by
    simpa only [pure, Except.pure, Except.ok.injEq] using h
  obtain ⟨_, _, _, _, _, hfs₁⟩ := storeNodeKey_ok_elim hst₁
  obtain ⟨_, _, _, _, _, hfs₂⟩ := storeNodeKey_ok_elim hst₂
  obtain ⟨_, _, _, _, _, hfs₃⟩ := storeNodeKey_ok_elim hst₃
  have hsfEq := prepareNodeKeyFilePaths_ok_elim hsf
  have hafEq := prepareNodeKeyFilePaths_ok_elim haf
  have htfEq := prepareTLSKeyFilePaths_ok_elim htf
  subst hfs'
  subst hfs₃
  subst hfs₂
  subst hfs₁
  subst hsfEq
  subst hafEq
  subst htfEq
  rw [storeFsResult_other _ _ _ _ (hq _ (by simp [writtenKeyFilePaths]))
        (hq _ (by simp [writtenKeyFilePaths])),
      storeFsResult_other _ _ _ _ (hq _ (by simp [writtenKeyFilePaths]))
        (hq _ (by simp [writtenKeyFilePaths])),
      storeFsResult_other _ _ _ _ (hq _ (by simp [writtenKeyFilePaths]))
        (hq _ (by simp [writtenKeyFilePaths]))]

theorem nodeKeyFilePaths_disjoint (keysDir x y : String) (hxy : y ≠ x) :
    ∀ p ∈ nodeKeyFilePaths keysDir y, ∀ r ∈ writtenKeyFilePaths keysDir x, p ≠ r := by
  intro p hp r hr
  fin_cases hp <;> fin_cases hr <;>
    refine pathJoin_ne_of_name_ne ?_ <;>
    (try simp only [renderGossipPemPrivateKeyFile, renderGossipPemPublicKeyFile,
      SIGNING_KEY_PREF, AGREEMENT_KEY_PREF]) <;>
    first
      | exact fun h => hxy (shapeMid_cancel h)
      | exact shapeHead_ne _ _ _ _ 0 (by decide) (by decide) (by decide)
      | exact shapeHead_ne _ _ _ _ 3 (by decide) (by decide) (by decide)
      | exact shapeTail_ne _ _ _ _ 0 (by decide) (by decide) (by decide)

/-- C1: for the modelled Add and Update lifecycle operations targeting node
x, every private-key and certificate file belonging to any other node y is
byte-for-byte unchanged (hence its cryptographic hash is unchanged). -/
theorem c1_add_update_non_interference
    (existing : List String) (x keysDir y : String) (fS fA fT : Nat) (fs fs' : Fs)
    (hy : y ∈ existing)
    (h : addNode existing x keysDir fS fA fT fs = Except.ok fs'
        ∨ (y ≠ x ∧ updateNode existing x keysDir fS fA fT fs = Except.ok fs')) :
    ∀ p ∈ nodeKeyFilePaths keysDir y, fs' p = fs p := by
  intro p hp
  rcases h with h | ⟨hyx, h⟩
  · by_cases hmem : x ∈ existing
    · unfold addNode at h
      rw [if_pos hmem] at h
      exact absurd h (by simp)
    · unfold addNode at h
      rw [if_neg hmem] at h
      have hyx : y ≠ x := fun he => hmem (he ▸ hy)
      exact regenerateNodeKeys_frame h p
        (fun r hr => nodeKeyFilePaths_disjoint keysDir x y hyx p hp r hr)
  · by_cases hmem : x ∈ existing
    · unfold updateNode at h
      rw [if_pos hmem] at h
      exact regenerateNodeKeys_frame h p
        (fun r hr => nodeKeyFilePaths_disjoint keysDir x y hyx p hp r hr)
    · unfold updateNode at h
      rw [if_neg hmem] at h
      exact absurd h (by simp)

/-- C1 witness: adding node3 to {node1, node2} leaves every node1 key
file unchanged. -/
theorem c1_witness :
    ("node1" ∈ (["node1", "node2"] : List String))
      ∧ addNode ["node1", "node2"] "node3" "keys" 10 11 12 fsEmptyW = Except.ok addResultW
      ∧ (∀ p ∈ nodeKeyFilePaths "keys" "node1", addResultW p = fsEmptyW p) :=
  ⟨by decide, rfl,
    c1_add_update_non_interference ["node1", "node2"] "node3" "keys" "node1" 10 11 12
      fsEmptyW addResultW (by decide) (Or.inl rfl)⟩

/-- C10 evaluation at the failing input: with the node1 gossip signing
private key present at the spec layout path keys/s-private-node1.pem,
backupOldPemKeys computes its source path as
keys/node1-private-undefined.pem (the template is called with one argument,
so the node id parameter interpolates as undefined), finds that path absent,
and therefore neither copies nor removes the actual key file; only the dated
backup directory path is created and returned. -/
theorem c10_backup_pem_keys_misses_key_files :
    (backupOldPemKeys ["node1"] "keys" dateW "gossip-pem" fs10W).1
        = "keys/unused-gossip-pem/20240001_020304"
      ∧ (backupOldPemKeys ["node1"] "keys" dateW "gossip-pem" fs10W).2
          "keys/s-private-node1.pem" = some (FsNode.file [FileChunk.pemE (.keyP8 0)])
      ∧ (backupOldPemKeys ["node1"] "keys" dateW "gossip-pem" fs10W).2
          "keys/unused-gossip-pem/20240001_020304/s-private-node1.pem" = none
      ∧ fs10W "keys/node1-private-undefined.pem" = none :=
  ⟨rfl, rfl, rfl, rfl⟩

end Solo
